import Mathlib

/-!
Verification development for the AI code-editing workbench server
(project reader, snapshot archiver, change applier, AST block service,
XML change parsing and the chat-history optimizer).

The TypeScript sources are shallowly embedded below.  JavaScript strings
are modelled through their character lists (`String.data`), with indices
counted in characters; the handful of library functions the code calls
(`minimatch`, the `ignore` package, `fast-xml-parser`, the regexes of the
standard library) are modelled by explicit Lean functions that implement
their documented semantics on the inputs the code produces.
-/

set_option maxRecDepth 20000

namespace AISB

/-! ## JavaScript string primitives (character-list model) -/

/-- Characters the JavaScript `trim`/`\s` family treats as whitespace. -/
def isJsWs (c : Char) : Bool :=
  c = ' ' || c = '\t' || c = '\n' || c = '\r' || c = '\x0b' || c = '\x0c'

def ofChars (l : List Char) : String := ⟨l⟩

/-- Models `s.substring(a, b)` with character indices. -/
def jsSub (s : String) (a b : Nat) : String := ofChars ((s.data.drop a).take (b - a))

/-- Models `s.substring(a)` with a character index. -/
def jsSubFrom (s : String) (a : Nat) : String := ofChars (s.data.drop a)

/-- Models `s.trimStart()`. -/
def jsTrimStart (s : String) : String := ofChars (s.data.dropWhile isJsWs)

/-- Models `s.trimEnd()`. -/
def jsTrimEnd (s : String) : String := ofChars ((s.data.reverse.dropWhile isJsWs).reverse)

/-- Models `s.trim()`. -/
def jsTrim (s : String) : String := jsTrimStart (jsTrimEnd s)

/-- The non-whitespace characters of a string, in order. -/
def nonWs (s : String) : List Char := s.data.filter (fun c => !isJsWs c)

def splitChars (sep : Char) : List Char → List Char → List String
  | acc, [] => [ofChars acc.reverse]
  | acc, c :: cs =>
    if c = sep then ofChars acc.reverse :: splitChars sep [] cs
    else splitChars sep (c :: acc) cs

/-- Models `s.split(sep)` for a one-character separator. -/
def jsSplit (s : String) (sep : Char) : List String := splitChars sep [] s.data

/-- Models `String.prototype.startsWith`. -/
def jsStartsWith (s pre : String) : Bool := pre.data.isPrefixOf s.data

def isSuffixChars : List Char → List Char → Bool
  | a, b => a.reverse.isPrefixOf b.reverse

/-- Models `String.prototype.endsWith`. -/
def jsEndsWith (s suf : String) : Bool := isSuffixChars suf.data s.data

def digitsVal : List Char → Nat → Nat
  | [], acc => acc
  | c :: cs, acc => digitsVal cs (acc * 10 + (c.toNat - '0'.toNat))

def takeDigits : List Char → List Char
  | [] => []
  | c :: cs => if c.isDigit then c :: takeDigits cs else []

/-- Model of JavaScript `parseInt(s, 10)`: optional leading whitespace and
sign, then the longest digit prefix; `none` is `NaN`. -/
def jsParseInt (s : String) : Option Int :=
  let l := s.data.dropWhile isJsWs
  match l with
  | '-' :: rest =>
    let d := takeDigits rest
    if d = [] then none else some (-(digitsVal d 0 : Int))
  | '+' :: rest =>
    let d := takeDigits rest
    if d = [] then none else some (digitsVal d 0 : Int)
  | rest =>
    let d := takeDigits rest
    if d = [] then none else some (digitsVal d 0 : Int)

def replFirstAux (pat rep : List Char) : List Char → Option (List Char)
  | [] => none
  | c :: cs =>
    if pat.isPrefixOf (c :: cs) then some (rep ++ (c :: cs).drop pat.length)
    else (replFirstAux pat rep cs).map (c :: ·)

/-- Models `s.replace(pat, rep)` with a nonempty plain-string pattern: replaces the
first occurrence only (no occurrence leaves the string unchanged). -/
def jsReplaceFirst (s pat rep : String) : String :=
  match replFirstAux pat.data rep.data s.data with
  | some l => ofChars l
  | none => s

def normCRLFAux : List Char → List Char
  | [] => []
  | '\r' :: '\n' :: cs => '\n' :: normCRLFAux cs
  | c :: cs => c :: normCRLFAux cs

/-- Models the global CRLF-to-LF replace on a string. -/
def normCRLF (s : String) : String := ofChars (normCRLFAux s.data)

def findSubAux (pat : List Char) : List Char → Nat → Option Nat
  | [], _ => if pat = [] then some 0 else none
  | c :: cs, i =>
    if pat.isPrefixOf (c :: cs) then some i else findSubAux pat cs (i + 1)

/-- Models `s.indexOf(pat)` as an `Option` character index. -/
def jsIndexOf (s pat : String) : Option Nat := findSubAux pat.data s.data 0

/-- Models `s.includes(pat)`. -/
def jsIncludes (s pat : String) : Bool := (jsIndexOf s pat).isSome

def joinWith (sep : String) : List String → String
  | [] => ""
  | [x] => x
  | x :: y :: rest => x ++ sep ++ joinWith sep (y :: rest)

def lastD {α : Type} (d : α) : List α → α
  | [] => d
  | [x] => x
  | _ :: y :: rest => lastD d (y :: rest)

def charsLt : List Char → List Char → Bool
  | [], [] => false
  | [], _ :: _ => true
  | _ :: _, [] => false
  | a :: as, b :: bs =>
    if a.toNat < b.toNat then true
    else if b.toNat < a.toNat then false
    else charsLt as bs

/-- The JavaScript `<` on strings (lexicographic on code units). -/
def strLtB (a b : String) : Bool := charsLt a.data b.data

def strMax (a b : String) : String := if strLtB a b then b else a

/-- Maximum of a string list in the JavaScript default sort order
(lexicographic); the model of sort-descending-take-first. -/
def maxString : List String → Option String
  | [] => none
  | x :: xs =>
    match maxString xs with
    | none => some x
    | some m => some (strMax x m)

def insertByKey (b : String × Nat) : List (String × Nat) → List (String × Nat)
  | [] => [b]
  | x :: xs => if x.2 ≤ b.2 then x :: insertByKey b xs else b :: x :: xs

/-- Stable sort by the numeric key, the model of the stable
`Array.prototype.sort((a, b) => a.startLine - b.startLine)`. -/
def stableSortByKey (l : List (String × Nat)) : List (String × Nat) :=
  l.foldl (fun acc b => insertByKey b acc) []

def dedupFirstAux (seen : List String) : List String → List String
  | [] => []
  | x :: xs =>
    if x ∈ seen then dedupFirstAux seen xs
    else x :: dedupFirstAux (x :: seen) xs

/-- Models `Array.from(new Set(l))`: keeps the first occurrence of each element. -/
def dedupFirst (l : List String) : List String := dedupFirstAux [] l

def insertStr (x : String) : List String → List String
  | [] => [x]
  | y :: ys => if !strLtB y x then x :: y :: ys else y :: insertStr x ys

/-- Ascending insertion sort; the model of the JavaScript default
`Array.prototype.sort()` on strings. -/
def sortStrings : List String → List String
  | [] => []
  | x :: xs => insertStr x (sortStrings xs)

def assocLookup {α : Type} : List (String × α) → String → Option α
  | [], _ => none
  | (q, v) :: rest, k => if q = k then some v else assocLookup rest k

/-! ## Model of the `minimatch` library (restricted to the glob features
the ignore-pattern transform produces: literal characters, `*` inside a
segment, `**` as a whole segment; `dot: true`, so leading dots are not
special). -/

def segMatchF : Nat → List Char → List Char → Bool
  | 0, _, _ => false
  | _ + 1, [], [] => true
  | _ + 1, [], _ :: _ => false
  | fuel + 1, '*' :: ps, s =>
    segMatchF fuel ps s ||
      (match s with
       | [] => false
       | _ :: rest => segMatchF fuel ('*' :: ps) rest)
  | fuel + 1, p :: ps, s =>
    match s with
    | [] => false
    | c :: cs => p = c && segMatchF fuel ps cs

/-- One-segment glob match (each recursive step shortens pattern or
input, so the fuel below always suffices). -/
def segMatch (p s : List Char) : Bool := segMatchF (p.length + s.length + 1) p s

def globSegsF : Nat → List String → List String → Bool
  | 0, _, _ => false
  | _ + 1, [], [] => true
  | _ + 1, [], _ :: _ => false
  | fuel + 1, "**" :: ps, segs =>
    globSegsF fuel ps segs ||
      (match segs with
       | [] => false
       | _ :: rest => globSegsF fuel ("**" :: ps) rest)
  | fuel + 1, p :: ps, segs =>
    match segs with
    | [] => false
    | s :: ss => segMatch p.data s.data && globSegsF fuel ps ss

def globSegs (ps segs : List String) : Bool :=
  globSegsF (ps.length + segs.length + 1) ps segs

/-- Models minimatch of a path against one pattern, with the dot option
enabled. -/
def miniMatch (path pattern : String) : Bool :=
  globSegs (jsSplit pattern '/') (jsSplit path '/')

/-! ## Workspace Reader (`projectReader.ts`)

The workspace is modelled as the flat list of file paths the recursive
walk would visit, in visit order, each carrying the outcome of
`fs.readFile` (`Except.error` models a rejected read).  Exclusion of an
entry covers the entry itself and the pruning performed when one of its
ancestor directories was skipped by the walk. -/

abbrev Fs := List (String × Except Unit String)

/-- The proper directory prefixes of a relative path
(`"a/b/c"` gives `["a", "a/b"]`). -/
def ancestorsOf (p : String) : List String :=
  let segs := jsSplit p '/'
  (List.range (segs.length - 1)).map
    (fun i => joinWith "/" (segs.take (i + 1)))

/-- The walk in `listFilesRecursively`/`readFilesRecursivelyForSummary`
skips an entry when its relative path matches one of the patterns; a
matched directory prunes its whole subtree. -/
def walkExcluded (pats : List String) (p : String) : Bool :=
  pats.any (fun pat => miniMatch p pat) ||
    (ancestorsOf p).any (fun d => pats.any (fun pat => miniMatch d pat))

/-- Models `getIgnorePatterns` (projectReader.ts:90-112): reads `.aiignore` only
and expands its lines with the gitignore-flavoured transform. -/
def parseAiignore (content : String) : List String :=
  ((jsSplit content '\n').map jsTrim).filter
      (fun line => line ≠ "" && !jsStartsWith line "#")
    |>.flatMap (fun pat =>
      let pat1 :=
        if jsStartsWith pat "/" then jsSubFrom pat 1
        else if !jsIncludes pat "/" then "**/" ++ pat
        else pat
      if jsEndsWith pat1 "/" then
        let base := jsSub pat1 0 (pat1.data.length - 1)
        [base, base ++ "/**"]
      else [pat1])

/-- Ignore patterns of the Reader for a workspace: the `.aiignore` file at
the root, or no patterns when it is absent or unreadable. -/
def readerPatterns (fs : Fs) : List String :=
  match assocLookup fs ".aiignore" with
  | some (Except.ok content) => parseAiignore content
  | _ => []

/-- Models `readFilesRecursivelyForSummary`: visits every non-excluded file; a
single failing read rejects the whole `Promise.all`, hence the whole
walk. -/
def walkForSummary (pats : List String) : Fs → Except Unit (List (String × String))
  | [] => Except.ok []
  | (p, r) :: rest =>
    if walkExcluded pats p then walkForSummary pats rest
    else
      match r with
      | Except.error e => Except.error e
      | Except.ok c =>
        match walkForSummary pats rest with
        | Except.error e => Except.error e
        | Except.ok tail => Except.ok ((p, c) :: tail)

structure Digest where
  summary : String
  includedFiles : List String
  fileContentsMap : List (String × String)
  deriving Repr, DecidableEq

/-- Models `createProjectSummary` (projectReader.ts:178-206): formats the walked
files; any error caught at the top level yields the empty digest. -/
def mkSummary (files : List (String × String)) : String :=
  let joined := joinWith "\n\n" (files.map
    (fun f => "--- START OF FILE " ++ f.1 ++ " ---\n" ++ f.2))
  if joined = "" then joined
  else "These are the existing files in the app:\n" ++ joined

def createProjectSummary (fs : Fs) : Digest :=
  match walkForSummary (readerPatterns fs) fs with
  | Except.error _ => ⟨"", [], []⟩
  | Except.ok files => ⟨mkSummary files, files.map (·.1), files⟩

/-! ## Snapshot Store (`archiver.ts`)

State model: the workspace is a flat map of relative path to text (the
visit order of the directory walk), and the sibling `backups/` root is a
map of folder name to the path-to-text map of that snapshot.  The
`ignore` npm package used by `getIgnoreInstance` is modelled by
`igMatchRule` (gitignore semantics restricted to the feature set above;
negation rules are not modelled). -/

abbrev FileMap := List (String × String)

structure Sys where
  project : FileMap
  backups : List (String × FileMap)
  deriving Repr, DecidableEq

/-- Contribution of one ignore file to an `ignore()` instance. -/
def igLinesOf (content : String) : List String :=
  ((jsSplit content '\n').map jsTrim).filter
    (fun line => line ≠ "" && !jsStartsWith line "#")

/-- Models `getIgnoreInstance` (archiver.ts:5-19): rules of `.aiignore` and
`.gitignore` at the workspace root, in that order; a missing file
contributes nothing. -/
def igRules (proj : FileMap) : List String :=
  (match assocLookup proj ".aiignore" with
   | some c => igLinesOf c
   | none => []) ++
  (match assocLookup proj ".gitignore" with
   | some c => igLinesOf c
   | none => [])

/-- Whether one gitignore rule matches a relative path: a leading `/`
anchors, a pattern without `/` matches at any depth, a trailing `/`
restricts to directories (covered here through the ancestor check of
`archTracked`). -/
def igMatchRule (rule p : String) : Bool :=
  let dirRule := jsEndsWith rule "/"
  let r1 := if dirRule then jsSub rule 0 (rule.data.length - 1) else rule
  let anchored := jsStartsWith r1 "/"
  let r2 := if anchored then jsSubFrom r1 1 else r1
  let pat := if !anchored && !jsIncludes r2 "/" then "**/" ++ r2 else r2
  miniMatch p pat

/-- A path survives `listFiles` (archiver.ts:21-43): neither it nor any
ancestor directory is matched by a rule (a matched directory prunes its
subtree). -/
def archTracked (rules : List String) (p : String) : Bool :=
  !(rules.any (fun r => igMatchRule r p)) &&
    (ancestorsOf p).all (fun d => !(rules.any (fun r => igMatchRule r d)))

/-- Models `listFiles(projectPath, projectPath, ig)` restricted to the tracked
workspace files, with contents. -/
def trackedFiles (rules : List String) (proj : FileMap) : FileMap :=
  proj.filter (fun f => archTracked rules f.1)

/-- Models `getLatestBackupDir` (archiver.ts:45-57): backup folder names sorted
descending, first one — the lexicographically greatest name. -/
def latestBackupName (backups : List (String × FileMap)) : Option String :=
  maxString (backups.map (·.1))

/-- Models `areDirectoriesEqual` (archiver.ts:59-84): the backup directory is
listed with a fresh empty `ignore()` instance, path lists are compared
sorted, then contents byte-for-byte. -/
def areDirectoriesEqual (projFiles : FileMap) (backupFiles : FileMap) : Bool :=
  let sp := sortStrings (projFiles.map (·.1))
  let sb := sortStrings (backupFiles.map (·.1))
  sp = sb &&
    sp.all (fun f => assocLookup projFiles f = assocLookup backupFiles f)

/-- Models `fs.copyFile` into a (possibly pre-existing) backup directory:
overwrite per file, keep unrelated files. -/
def overwriteMap (base incoming : FileMap) : FileMap :=
  (base.filter (fun f => assocLookup incoming f.1 = none)) ++ incoming

def putBackup (backups : List (String × FileMap)) (name : String)
    (files : FileMap) : List (String × FileMap) :=
  match assocLookup backups name with
  | none => backups ++ [(name, files)]
  | some old =>
    backups.map (fun b => if b.1 = name then (name, overwriteMap old files) else b)

/-- Models `createBackup(projectPath, backupFolderName)` (archiver.ts:86-117).
There is no `force` parameter: when the latest (greatest-named) backup is
equal to the tracked workspace the call is elided. -/
def backupSkip (sys : Sys) : Bool :=
  match latestBackupName sys.backups with
  | some latest =>
    (match assocLookup sys.backups latest with
     | some bf =>
        areDirectoriesEqual (trackedFiles (igRules sys.project) sys.project) bf
     | none => false)
  | none => false

def createBackup (sys : Sys) (folderName : String) :
    (Bool × Option String) × Sys :=
  if backupSkip sys then ((false, none), sys)
  else
    ((true, some folderName),
      { sys with backups :=
          (putBackup sys.backups folderName
            (trackedFiles (igRules sys.project) sys.project)) })

/-! ## Edit Applier (`changeApplier.ts`, the exported variant at
lines 143-197 that `server.ts` calls)

`FileChange` is the interface of `aiService.ts` (lines 91-101); note that
it carries an optional `blockPath`, which `applyChanges` never reads.
`path.join(baseDirectory, file)` is abstracted to the relative path
itself; the sanitized ISO timestamp of the backup label is passed in as
the `ts` parameter. -/

structure FileChange where
  type : String
  file : String
  description : Option String
  content : Option String
  blockPath : Option String
  deriving Repr, DecidableEq

structure ChangeDetail where
  file : String
  description : Option String
  fullPath : String
  deriving Repr, DecidableEq

def setFile (proj : FileMap) (p c : String) : FileMap :=
  match assocLookup proj p with
  | none => proj ++ [(p, c)]
  | some _ => proj.map (fun f => if f.1 = p then (p, c) else f)

def delFile (proj : FileMap) (p : String) : FileMap :=
  proj.filter (fun f => f.1 ≠ p)

/-- The per-edit loop of `applyChanges` (changeApplier.ts:151-188): a
falsy `file` is skipped; `delete` removes the file when present (and
counts as applied either way, since the missing-file case is caught and
only warned about); any other type is an update: without `content` the
edit is skipped, otherwise `content` is written as the whole file. -/
def applyLoop : List FileChange → FileMap → List ChangeDetail × FileMap
  | [], proj => ([], proj)
  | ch :: rest, proj =>
    if ch.file = "" then applyLoop rest proj
    else if ch.type = "delete" then
      let proj' := if (assocLookup proj ch.file).isSome then delFile proj ch.file else proj
      let r := applyLoop rest proj'
      (⟨ch.file, ch.description, ch.file⟩ :: r.1, r.2)
    else
      match ch.content with
      | none => applyLoop rest proj
      | some c =>
        let r := applyLoop rest (setFile proj ch.file c)
        (⟨ch.file, ch.description, ch.file⟩ :: r.1, r.2)

structure ApplyOutcome where
  appliedChanges : List ChangeDetail
  backupCreated : Bool
  backupFolderName : Option String
  deriving Repr, DecidableEq

/-- Models `applyChanges` (changeApplier.ts:143-197): run the loop, then, when at
least one edit was applied, call `createBackup` with the label
`<sanitized-iso-timestamp>_ai_change` — with no `force` argument. -/
def applyChanges (changes : List FileChange) (sys : Sys) (ts : String) :
    ApplyOutcome × Sys :=
  let r := applyLoop changes sys.project
  if r.1.length > 0 then
    let b := createBackup { sys with project := r.2 } (ts ++ "_ai_change")
    (⟨r.1, b.1.1, b.1.2⟩, b.2)
  else
    (⟨r.1, false, none⟩, { sys with project := r.2 })

/-! ## Structural Index (`astService.ts`)

`@babel/parser` is external; its output is modelled by `Ast`:
`topStmts` is `ast.program.body` in source order, and `dfsNodes` is the
full pre-order node sequence that `traverse(ast, { enter })` visits
(the `Program` node first).  Offsets are character offsets into the file,
`startLine` is 1-based, `leadStart` is `leadingComments[0].start` when
the node has an attached leading comment block.

The shape of a top-level statement records exactly what the two functions
inspect: whether it is an import, whether it is an
`ExportNamedDeclaration` carrying a declaration, and for (plain or
exported) function/class/variable declarations the declared names.
The traversal handlers of `replaceBlockByPath` only ever fire on
top-level statements: `FunctionDeclaration`/`ClassDeclaration`/
`VariableDeclaration` guard on the parent being the Program node, and
`ExportNamedDeclaration` is only legal at the top level of a module. -/

structure NodeInfo where
  startLine : Nat
  start : Nat
  stop : Nat
  leadStart : Option Nat
  deriving Repr, DecidableEq

inductive DeclInfo where
  /-- Models `FunctionDeclaration` with its optional `id`. -/
  | funcD (id : Option String)
  /-- Models `ClassDeclaration` with its optional `id`. -/
  | classD (id : Option String)
  /-- Models `VariableDeclaration`: one entry per declarator, `some name` when the
  declarator binds a plain `Identifier`. -/
  | varD (ids : List (Option String))
  deriving Repr, DecidableEq

inductive StmtShape where
  /-- Models `ImportDeclaration`. -/
  | importS
  /-- Models `ExportNamedDeclaration`; the payload is its declaration when that
  declaration is a function/class/variable declaration (`none` covers
  `export { x }` and exported declarations of other kinds). -/
  | exportNamedS (decl : Option DeclInfo)
  /-- A plain declaration; `none` when it is a declaration of a kind other
  than function/class/variable. -/
  | declS (decl : Option DeclInfo)
  /-- A non-declaration statement (expression statement, ...). -/
  | otherS
  deriving Repr, DecidableEq

structure TopStmt where
  node : NodeInfo
  shape : StmtShape
  deriving Repr, DecidableEq

structure Ast where
  topStmts : List TopStmt
  dfsNodes : List NodeInfo
  deriving Repr, DecidableEq

/-- Models `processDeclaration` (astService.ts:46-56): name of a function/class
declaration with an `id`, or the first declarator of a variable
declaration when it binds an identifier. -/
def declName : DeclInfo → Option String
  | DeclInfo.funcD id => id
  | DeclInfo.classD id => id
  | DeclInfo.varD ids =>
    match ids with
    | [] => none
    | x :: _ => x

/-- The preferred path of a top-level statement in
`getNavigationalPaths`, before the `$line` fallback. -/
def declPathOf : StmtShape → Option String
  | StmtShape.exportNamedS (some di) => declName di
  | StmtShape.declS (some di) => declName di
  | _ => none

def isImportStmt (st : TopStmt) : Bool :=
  match st.shape with
  | StmtShape.importS => true
  | _ => false

/-- The `$line:<startLine>:<trimmed source line>` fallback of
`getNavigationalPaths` (astService.ts:71-78), `none` when the line is
empty after trimming. -/
def fallbackPath (lines : List String) (startLine : Nat) : Option String :=
  if jsTrim (lines.getD (startLine - 1) "") = "" then none
  else some ("$line:" ++ toString startLine ++ ":" ++
    jsTrim (lines.getD (startLine - 1) ""))

/-- The path a non-import top-level statement contributes: its first
declared name, else the `$line` fallback. -/
def pathOfStmt (lines : List String) (st : TopStmt) : Option String :=
  match declPathOf st.shape with
  | some p => some p
  | none => fallbackPath lines st.node.startLine

/-- The body loop of `getNavigationalPaths` (astService.ts:40-83): the
first import contributes `$imports` once (later imports contribute
nothing); other statements contribute `pathOfStmt` when present. -/
def navBlocks (lines : List String) : List TopStmt → Bool → List (String × Nat)
  | [], _ => []
  | st :: rest, hasImports =>
    if isImportStmt st then
      if hasImports then navBlocks lines rest hasImports
      else ("$imports", st.node.startLine) :: navBlocks lines rest true
    else
      match pathOfStmt lines st with
      | some p => (p, st.node.startLine) :: navBlocks lines rest hasImports
      | none => navBlocks lines rest hasImports

/-- Models `getNavigationalPaths` (astService.ts:33-91). -/
def getNavigationalPaths (code : String) (ast : Ast) : List String :=
  let lines := jsSplit code '\n'
  let blocks := navBlocks lines ast.topStmts false
  dedupFirst ((stableSortByKey blocks).map (·.1))

/-- Whether a top-level statement is matched for a named block path, the
union of the four traversal handlers of `replaceBlockByPath`
(astService.ts:121-165). -/
def stmtMatches (blockPath : String) (st : TopStmt) : Bool :=
  let declHit : Option DeclInfo → Bool := fun d =>
    match d with
    | some (DeclInfo.funcD (some n)) => n = blockPath
    | some (DeclInfo.classD (some n)) => n = blockPath
    | some (DeclInfo.varD ids) => ids.contains (some blockPath)
    | _ => false
  match st.shape with
  | StmtShape.exportNamedS d => declHit d
  | StmtShape.declS d => declHit d
  | _ => false

/-- Models `setRange` (astService.ts:105-109): the cut starts at the first
leading comment when one is attached. -/
def rangeOf (nd : NodeInfo) : Nat × Nat := (nd.leadStart.getD nd.start, nd.stop)

/-- The cut taken before the first early return of `replaceBlockByPath`:
the `$imports` span (`node.start` of the first import to `node.end` of
the last, comments not included), or the `setRange` span of the first
top-level statement matching a named path. -/
def primaryCut (ast : Ast) (blockPath : String) : Option (Nat × Nat) :=
  if blockPath = "$imports" then
    match ast.topStmts.filter isImportStmt with
    | [] => none
    | first :: rest =>
      some (first.node.start, (lastD first (first :: rest)).node.stop)
  else
    (ast.topStmts.find? (stmtMatches blockPath)).map (fun st => rangeOf st.node)

/-- The enter-visitor traversal of the `$line` branch: the first
node (in pre-order) whose location starts on the target line. -/
def firstNodeOnLine (ast : Ast) (target : Int) : Option NodeInfo :=
  ast.dfsNodes.find? (fun nd => (nd.startLine : Int) = target)

/-- The `$line:<n>:<content>` branch (astService.ts:172-211): parse the
path, locate the first node on the line, and require the trimmed node
source to equal the trimmed content suffix; the cut is the `setRange`
span of that node. -/
def lineCut (code : String) (ast : Ast) (blockPath : String) : Option (Nat × Nat) :=
  if jsStartsWith blockPath "$line:" then
    if (jsSplit blockPath ':').length ≥ 3 then
      match jsParseInt ((jsSplit blockPath ':').getD 1 "") with
      | none => none
      | some target =>
        match firstNodeOnLine ast target with
        | none => none
        | some nd =>
          if jsTrim (jsSub code nd.start nd.stop) =
              jsTrim (joinWith ":" ((jsSplit blockPath ':').drop 2)) then
            some (rangeOf nd)
          else none
    else none
  else none

/-- Models `replaceBlockByPath` (astService.ts:100-223).  A primary
(named/`$imports`) cut returns the raw splice of astService.ts:169; a
successful `$line` cut returns the trim-and-rejoin splice of
astService.ts:217; otherwise the original code is returned unchanged. -/
def replaceBlockByPath (code : String) (ast : Ast) (blockPath newBlockContent : String) :
    String :=
  match primaryCut ast blockPath with
  | some (s, e) => jsSub code 0 s ++ newBlockContent ++ jsSubFrom code e
  | none =>
    match lineCut code ast blockPath with
    | some (s, e) =>
      jsTrimEnd (jsSub code 0 s) ++ "\n\n" ++ jsTrim newBlockContent ++ "\n\n" ++
        jsTrimStart (jsSubFrom code e)
    | none => code

/-- The cut `replaceBlockByPath` finally splices at (independent of the
replacement text). -/
def resolvedCut (code : String) (ast : Ast) (blockPath : String) : Option (Nat × Nat) :=
  match primaryCut ast blockPath with
  | some c => some c
  | none => lineCut code ast blockPath

/-- The current source text of the block a path resolves to, leading
comment block included — the text the cut removes. -/
def originalBlockText (code : String) (ast : Ast) (blockPath : String) : String :=
  match resolvedCut code ast blockPath with
  | some (s, e) => jsSub code s e
  | none => ""

/-- The declared names a top-level statement can be matched by. -/
def stmtNames (st : TopStmt) : List String :=
  let declNames : Option DeclInfo → List String := fun d =>
    match d with
    | some (DeclInfo.funcD (some n)) => [n]
    | some (DeclInfo.classD (some n)) => [n]
    | some (DeclInfo.varD ids) => ids.filterMap id
    | _ => []
  match st.shape with
  | StmtShape.exportNamedS d => declNames d
  | StmtShape.declS d => declNames d
  | _ => []

def wfNode (nd : NodeInfo) : Bool :=
  nd.leadStart.getD nd.start ≤ nd.start && nd.start ≤ nd.stop

/-- Well-formedness of an `Ast` for a file, the facts the Babel parser
guarantees and the proofs below use: consistent node ranges, top-level
statements in source order without overlap, and declared names that are
JavaScript identifiers (hence contain no `:`). -/
def wfAst (ast : Ast) : Bool :=
  ast.topStmts.all (fun st => wfNode st.node) &&
  ast.dfsNodes.all wfNode &&
  (ast.topStmts.map (fun st => st.node)).Pairwise (fun a b => a.stop ≤ b.start) &&
  ast.topStmts.all (fun st => (stmtNames st).all (fun n => !jsIncludes n ":"))

/-! ## Concrete scenario instances

`s1Code`/`s1Ast` is scenario S1 of the specification; `dupCode`/`dupAst`
is a file with a duplicated variable name across two top-level variable
statements; `s3Code`/`s3Ast` is scenario S3.  The `Ast` instances record
the Babel parse of each file (offsets in characters). -/

def s1Code : String :=
  "export function greet() \x7b return \"hi\"; \x7d\nexport const X = 1;"

def s1Ast : Ast where
  topStmts :=
    [ { node := ⟨1, 0, 40, none⟩,
        shape := StmtShape.exportNamedS (some (DeclInfo.funcD (some "greet"))) },
      { node := ⟨2, 41, 60, none⟩,
        shape := StmtShape.exportNamedS (some (DeclInfo.varD [some "X"])) } ]
  dfsNodes :=
    [ ⟨1, 0, 60, none⟩, ⟨1, 0, 40, none⟩, ⟨1, 7, 40, none⟩, ⟨1, 16, 21, none⟩,
      ⟨1, 25, 40, none⟩, ⟨1, 26, 39, none⟩, ⟨1, 33, 38, none⟩,
      ⟨2, 41, 60, none⟩, ⟨2, 48, 60, none⟩, ⟨2, 54, 59, none⟩,
      ⟨2, 54, 55, none⟩, ⟨2, 58, 59, none⟩ ]

def s1NewGreet : String := "export function greet() \x7b return \"hello\"; \x7d"

def dupCode : String := "const a = 1, b = 2;\nconst b = 3;"

def dupAst : Ast where
  topStmts :=
    [ { node := ⟨1, 0, 19, none⟩,
        shape := StmtShape.declS (some (DeclInfo.varD [some "a", some "b"])) },
      { node := ⟨2, 20, 32, none⟩,
        shape := StmtShape.declS (some (DeclInfo.varD [some "b"])) } ]
  dfsNodes :=
    [ ⟨1, 0, 32, none⟩, ⟨1, 0, 19, none⟩, ⟨1, 6, 11, none⟩, ⟨1, 6, 7, none⟩,
      ⟨1, 10, 11, none⟩, ⟨1, 13, 18, none⟩, ⟨1, 13, 14, none⟩, ⟨1, 17, 18, none⟩,
      ⟨2, 20, 32, none⟩, ⟨2, 26, 31, none⟩, ⟨2, 26, 27, none⟩, ⟨2, 30, 31, none⟩ ]

def s3Code : String := "console.log(\"old\");"

def s3Ast : Ast where
  topStmts := [ { node := ⟨1, 0, 19, none⟩, shape := StmtShape.otherS } ]
  dfsNodes :=
    [ ⟨1, 0, 19, none⟩, ⟨1, 0, 19, none⟩, ⟨1, 0, 18, none⟩, ⟨1, 0, 11, none⟩,
      ⟨1, 0, 7, none⟩, ⟨1, 8, 11, none⟩, ⟨1, 12, 17, none⟩ ]

/-- Workspace whose latest-named backup (`zzz`) is stale while a fresh
backup would get a smaller name. -/
def sysStale : Sys := ⟨[("a.txt", "x")], [("zzz", [("a.txt", "y")])]⟩

/-- Workspace whose (single) backup already equals the post-apply state of
the edit used in the C4 counterexample. -/
def sysEq : Sys := ⟨[("a.ts", "old")], [("b0", [("a.ts", "NEW")])]⟩

def sysS1 : Sys := ⟨[("src/a.ts", s1Code)], []⟩

/-- Claim C1 counterexample: on scenario S1, an `update` edit whose
`blockPath` is `greet` (present, neither absent nor `$fullfile`) makes
`applyChanges` write the content of the edit as the whole file; the
block replacement of the Structural Index, which keeps the `X` declaration,
is never produced. -/
theorem c1_counterexample :
    (applyChanges [⟨"update", "src/a.ts", none, some s1NewGreet, some "greet"⟩]
        sysS1 "T").2.project = [("src/a.ts", s1NewGreet)] ∧
    replaceBlockByPath s1Code s1Ast "greet" s1NewGreet =
      s1NewGreet ++ "\nexport const X = 1;" ∧
    s1NewGreet ≠ s1NewGreet ++ "\nexport const X = 1;" := by
  refine ⟨by decide, by decide, by decide⟩

/-- Claim C3 counterexample: in `dupCode`, the path `b` is generated from
the second variable statement, but `replaceBlockByPath` resolves `b` to
the first statement (whose second declarator is also named `b`), so
replacing `b` with the source text of its generating block duplicates
that block and loses `a` — not the identity, not even modulo
whitespace. -/
theorem c3_counterexample :
    "b" ∈ getNavigationalPaths dupCode dupAst ∧
    jsSub dupCode 20 32 = "const b = 3;" ∧
    replaceBlockByPath dupCode dupAst "b" (jsSub dupCode 20 32) =
      "const b = 3;\nconst b = 3;" ∧
    nonWs (replaceBlockByPath dupCode dupAst "b" (jsSub dupCode 20 32)) ≠
      nonWs dupCode := by
  refine ⟨by decide, by decide, by decide, by decide⟩

/-- Claim C4 counterexample: an apply whose post-apply workspace equals
the latest backup records no snapshot — `backupCreated` is `false` and
the backup store is untouched, although one edit was applied. -/
theorem c4_counterexample :
    (applyChanges [⟨"update", "a.ts", none, some "NEW", none⟩] sysEq "T").1.appliedChanges ≠ [] ∧
    (applyChanges [⟨"update", "a.ts", none, some "NEW", none⟩] sysEq "T").1.backupCreated = false ∧
    (applyChanges [⟨"update", "a.ts", none, some "NEW", none⟩] sysEq "T").2.backups = sysEq.backups := by
  refine ⟨by decide, by decide, by decide⟩

/-- Claim C5 counterexample: replacing the named block `greet` of
scenario S1 returns the raw splice — a single newline before
`export const X = 1;` — not the trimmed two-newline rejoin the claim
describes. -/
theorem c5_counterexample :
    replaceBlockByPath s1Code s1Ast "greet" s1NewGreet =
      s1NewGreet ++ "\nexport const X = 1;" ∧
    replaceBlockByPath s1Code s1Ast "greet" s1NewGreet ≠
      jsTrimEnd (jsSub s1Code 0 0) ++ "\n\n" ++ jsTrim s1NewGreet ++ "\n\n" ++
        jsTrimStart (jsSubFrom s1Code 40) := by
  refine ⟨by decide, by decide⟩

/-- Claim C6 counterexample: a rule present only in `.gitignore` does not
exclude a file from the Workspace Reader's digest — `b.txt` is matched by
the `.gitignore` rule `b.txt` yet is included. -/
theorem c6_counterexample :
    "b.txt" ∈ (createProjectSummary
      [(".gitignore", Except.ok "b.txt"), ("a.txt", Except.ok "A"),
       ("b.txt", Except.ok "B")]).includedFiles := by decide

/-- Claim C7 counterexample: one failing file read (`b.ts`) makes
`createProjectSummary` return the empty digest; the readable `a.ts` is
not in the result. -/
theorem c7_counterexample :
    createProjectSummary [("a.ts", Except.ok "A"), ("b.ts", Except.error ())] =
      ⟨"", [], []⟩ ∧
    "a.ts" ∉ (createProjectSummary
      [("a.ts", Except.ok "A"), ("b.ts", Except.error ())]).includedFiles := by
  refine ⟨by decide, by decide⟩

/-- Claim C9 counterexample: with a stale backup named `zzz` (which sorts
after both new labels), two consecutive `createBackup` calls with no
intervening workspace change both create a snapshot — three snapshot
directories exist afterwards, not two. -/
theorem c9_counterexample :
    (createBackup sysStale "A").1.1 = true ∧
    (createBackup (createBackup sysStale "A").2 "B").1.1 = true ∧
    (createBackup (createBackup sysStale "A").2 "B").2.backups.length = 3 := by
  refine ⟨by decide, by decide, by decide⟩

/-! ## Helper lemmas: strings -/

theorem data_ofChars (l : List Char) : (ofChars l).data = l := rfl

theorem strData_append (a b : String) : (a ++ b).data = a.data ++ b.data := rfl

theorem strExt {a b : String} (h : a.data = b.data) : a = b := by
  cases a; cases b; exact congrArg String.mk h

/-- Splicing the middle of a string back between its outer parts is the
identity. -/
theorem splice_id (code : String) (s e : Nat) (h : s ≤ e) :
    jsSub code 0 s ++ (jsSub code s e ++ jsSubFrom code e) = code := by
  apply strExt
  simp only [strData_append, jsSub, jsSubFrom, data_ofChars, Nat.sub_zero,
    List.drop_zero]
  have hdrop : code.data.drop e = (code.data.drop s).drop (e - s) := by
    rw [List.drop_drop, Nat.add_sub_cancel' h]
  rw [hdrop, List.take_append_drop, List.take_append_drop]

theorem nonWs_append (a b : String) : nonWs (a ++ b) = nonWs a ++ nonWs b := by
  simp [nonWs, strData_append, List.filter_append]

theorem filter_dropWhile_nonWs (l : List Char) :
    (l.dropWhile isJsWs).filter (fun c => !isJsWs c) =
      l.filter (fun c => !isJsWs c) := by
  induction l with
  | nil => rfl
  | cons c cs ih =>
    by_cases h : isJsWs c
    · simp [List.dropWhile, List.filter, h, ih]
    · simp [List.dropWhile, List.filter, h]

theorem nonWs_trimStart (s : String) : nonWs (jsTrimStart s) = nonWs s := by
  simp [nonWs, jsTrimStart, data_ofChars, filter_dropWhile_nonWs]

theorem nonWs_trimEnd (s : String) : nonWs (jsTrimEnd s) = nonWs s := by
  simp only [nonWs, jsTrimEnd, data_ofChars]
  rw [List.filter_reverse, filter_dropWhile_nonWs, List.filter_reverse,
    List.reverse_reverse]

theorem nonWs_trim (s : String) : nonWs (jsTrim s) = nonWs s := by
  rw [jsTrim, nonWs_trimStart, nonWs_trimEnd]

theorem nonWs_nl2 : nonWs "\n\n" = [] := by decide

/-! ## Helper lemmas: sorting, dedup and navigational paths -/

theorem mem_insertByKey {a b : String × Nat} {l : List (String × Nat)} :
    a ∈ insertByKey b l ↔ a = b ∨ a ∈ l := by
  induction l with
  | nil => simp [insertByKey]
  | cons x xs ih =>
    by_cases h : x.2 ≤ b.2
    · simp only [insertByKey, if_pos h, List.mem_cons, ih]
      tauto
    · simp only [insertByKey, if_neg h, List.mem_cons]

theorem mem_foldl_insertByKey {a : String × Nat} :
    ∀ (l acc : List (String × Nat)),
      a ∈ l.foldl (fun acc b => insertByKey b acc) acc ↔ a ∈ acc ∨ a ∈ l := by
  intro l
  induction l with
  | nil => simp
  | cons x xs ih =>
    intro acc
    simp only [List.foldl_cons, ih, mem_insertByKey, List.mem_cons]
    tauto

theorem mem_stableSortByKey {a : String × Nat} {l : List (String × Nat)} :
    a ∈ stableSortByKey l ↔ a ∈ l := by
  simp [stableSortByKey, mem_foldl_insertByKey]

theorem mem_of_dedupFirstAux {a : String} :
    ∀ (l seen : List String), a ∈ dedupFirstAux seen l → a ∈ l := by
  intro l
  induction l with
  | nil => intro seen h; exact absurd h (by simp [dedupFirstAux])
  | cons x xs ih =>
    intro seen h
    by_cases hx : x ∈ seen
    · simp only [dedupFirstAux, if_pos hx] at h
      exact List.mem_cons_of_mem x (ih _ h)
    · simp only [dedupFirstAux, if_neg hx, List.mem_cons] at h
      rcases h with h | h
      · exact h ▸ List.mem_cons_self x xs
      · exact List.mem_cons_of_mem x (ih _ h)

theorem mem_of_dedupFirst {a : String} {l : List String} :
    a ∈ dedupFirst l → a ∈ l :=
  mem_of_dedupFirstAux l []

theorem jsStartsWith_append (pre rest : String) :
    jsStartsWith (pre ++ rest) pre = true := by
  simp only [jsStartsWith, strData_append]
  exact List.isPrefixOf_iff_prefix.mpr (List.prefix_append _ _)

theorem fallbackPath_startsWith {lines : List String} {n : Nat} {q : String}
    (h : fallbackPath lines n = some q) : jsStartsWith q "$line:" = true := by
  unfold fallbackPath at h
  split at h
  · exact absurd h (by simp)
  · have hq := Option.some.inj h
    have : q = "$line:" ++ (toString n ++ ":" ++ jsTrim (lines.getD (n - 1) "")) := by
      rw [← hq]; simp [String.append_assoc]
    exact this ▸ jsStartsWith_append _ _

/-- Every entry of `navBlocks` is the `$imports` sentinel, a declared
name of one of the statements, or a `$line:` fallback path. -/
theorem navBlocks_mem {p : String} {ln : Nat} (lines : List String) :
    ∀ (stmts : List TopStmt) (b : Bool), (p, ln) ∈ navBlocks lines stmts b →
      p = "$imports" ∨ (∃ st ∈ stmts, declPathOf st.shape = some p) ∨
        jsStartsWith p "$line:" = true := by
  intro stmts
  induction stmts with
  | nil => intro b h; exact absurd h (by simp [navBlocks])
  | cons st rest ih =>
    intro b h
    have mono : (p = "$imports" ∨ (∃ s ∈ rest, declPathOf s.shape = some p) ∨
        jsStartsWith p "$line:" = true) →
        (p = "$imports" ∨ (∃ s ∈ st :: rest, declPathOf s.shape = some p) ∨
          jsStartsWith p "$line:" = true) := by
      rintro (h | ⟨s, hs, hd⟩ | h)
      · exact Or.inl h
      · exact Or.inr (Or.inl ⟨s, List.mem_cons_of_mem st hs, hd⟩)
      · exact Or.inr (Or.inr h)
    rw [navBlocks] at h
    by_cases himp : isImportStmt st = true
    · rw [if_pos himp] at h
      by_cases hb : b = true

      · rw [if_pos hb] at h; exact mono (ih _ h)
      · rw [if_neg hb] at h
        rcases List.mem_cons.mp h with h | h
        · exact Or.inl (congrArg Prod.fst h)
        · exact mono (ih _ h)
    · rw [if_neg himp] at h
      rcases hps : pathOfStmt lines st with _ | q
      · rw [hps] at h; exact mono (ih _ h)
      · rw [hps] at h
        rcases List.mem_cons.mp h with h | h
        · have hq : p = q := congrArg Prod.fst h
          subst hq
          unfold pathOfStmt at hps
          rcases hdp : declPathOf st.shape with _ | r
          · rw [hdp] at hps
            exact Or.inr (Or.inr (fallbackPath_startsWith hps))
          · rw [hdp] at hps
            have : r = p := Option.some.inj hps
            exact Or.inr (Or.inl ⟨st, List.mem_cons_self st rest, this ▸ hdp⟩)
        · exact mono (ih _ h)

/-- Membership in the final path list lifts back to a `navBlocks` entry. -/
theorem paths_mem {p : String} {code : String} {ast : Ast}
    (h : p ∈ getNavigationalPaths code ast) :
    ∃ ln, (p, ln) ∈ navBlocks (jsSplit code '\n') ast.topStmts false := by
  have h1 := mem_of_dedupFirst h
  rcases List.mem_map.mp h1 with ⟨⟨q, ln⟩, hq, hfst⟩
  exact ⟨ln, by simpa [← hfst] using mem_stableSortByKey.mp hq⟩

/-! ## Helper lemmas: cut resolution -/

theorem stmtMatches_of_declPath {st : TopStmt} {p : String}
    (h : declPathOf st.shape = some p) : stmtMatches p st = true := by
  rcases st with ⟨nd, sh⟩
  rcases sh with _ | d | d | _
  · exact absurd h (by simp [declPathOf])
  · rcases d with _ | di
    · exact absurd h (by simp [declPathOf])
    · rcases di with id | id | ids
      · rcases id with _ | n
        · exact absurd h (by simp [declPathOf, declName])
        · have : n = p := Option.some.inj (by simpa [declPathOf, declName] using h)
          simp [stmtMatches, this]
      · rcases id with _ | n
        · exact absurd h (by simp [declPathOf, declName])
        · have : n = p := Option.some.inj (by simpa [declPathOf, declName] using h)
          simp [stmtMatches, this]
      · rcases ids with _ | ⟨x, t⟩
        · exact absurd h (by simp [declPathOf, declName])
        · have : x = some p := by simpa [declPathOf, declName] using h
          simp [stmtMatches, this, List.contains_cons]
  · rcases d with _ | di
    · exact absurd h (by simp [declPathOf])
    · rcases di with id | id | ids
      · rcases id with _ | n
        · exact absurd h (by simp [declPathOf, declName])
        · have : n = p := Option.some.inj (by simpa [declPathOf, declName] using h)
          simp [stmtMatches, this]
      · rcases id with _ | n
        · exact absurd h (by simp [declPathOf, declName])
        · have : n = p := Option.some.inj (by simpa [declPathOf, declName] using h)
          simp [stmtMatches, this]
      · rcases ids with _ | ⟨x, t⟩
        · exact absurd h (by simp [declPathOf, declName])
        · have : x = some p := by simpa [declPathOf, declName] using h
          simp [stmtMatches, this, List.contains_cons]
  · exact absurd h (by simp [declPathOf])

theorem stmtMatches_name {st : TopStmt} {p : String}
    (h : stmtMatches p st = true) : p ∈ stmtNames st := by
  rcases st with ⟨nd, sh⟩
  rcases sh with _ | d | d | _
  · exact absurd h (by simp [stmtMatches])
  · rcases d with _ | di
    · exact absurd h (by simp [stmtMatches])
    · rcases di with id | id | ids
      · rcases id with _ | n
        · exact absurd h (by simp [stmtMatches])
        · have : n = p := by simpa [stmtMatches] using h
          simp [stmtNames, this]
      · rcases id with _ | n
        · exact absurd h (by simp [stmtMatches])
        · have : n = p := by simpa [stmtMatches] using h
          simp [stmtNames, this]
      · have h2 : ids.contains (some p) = true := by simpa [stmtMatches] using h
        have : (some p) ∈ ids := by simpa [List.contains, List.elem_iff] using h2
        simp only [stmtNames]
        exact List.mem_filterMap.mpr ⟨some p, this, rfl⟩
  · rcases d with _ | di
    · exact absurd h (by simp [stmtMatches])
    · rcases di with id | id | ids
      · rcases id with _ | n
        · exact absurd h (by simp [stmtMatches])
        · have : n = p := by simpa [stmtMatches] using h
          simp [stmtNames, this]
      · rcases id with _ | n
        · exact absurd h (by simp [stmtMatches])
        · have : n = p := by simpa [stmtMatches] using h
          simp [stmtNames, this]
      · have h2 : ids.contains (some p) = true := by simpa [stmtMatches] using h
        have : (some p) ∈ ids := by simpa [List.contains, List.elem_iff] using h2
        simp only [stmtNames]
        exact List.mem_filterMap.mpr ⟨some p, this, rfl⟩
  · exact absurd h (by simp [stmtMatches])

theorem lastD_mem {α : Type} (d x : α) : ∀ (l : List α), lastD d (x :: l) ∈ x :: l := by
  intro l
  induction l generalizing x with
  | nil => simp [lastD]
  | cons y t ih =>
    have : lastD d (x :: y :: t) = lastD d (y :: t) := rfl
    rw [this]
    exact List.mem_cons_of_mem x (ih y)

theorem wf_top (hwf : wfAst ast = true) : ∀ st ∈ ast.topStmts, wfNode st.node = true := by
  simp only [wfAst, Bool.and_eq_true, List.all_eq_true] at hwf
  exact hwf.1.1.1

theorem wf_dfs (hwf : wfAst ast = true) : ∀ nd ∈ ast.dfsNodes, wfNode nd = true := by
  simp only [wfAst, Bool.and_eq_true, List.all_eq_true] at hwf
  exact hwf.1.1.2

theorem wf_pairwise (hwf : wfAst ast = true) :
    List.Pairwise (fun a b => a.stop ≤ b.start)
      (ast.topStmts.map (fun st => st.node)) := by
  simp only [wfAst, Bool.and_eq_true, List.all_eq_true, decide_eq_true_eq] at hwf
  exact hwf.1.2

theorem wf_names (hwf : wfAst ast = true) :
    ∀ st ∈ ast.topStmts, ∀ n ∈ stmtNames st, jsIncludes n ":" = false := by
  simp only [wfAst, Bool.and_eq_true, List.all_eq_true, Bool.not_eq_true'] at hwf
  exact hwf.2

theorem wfNode_le₁ {nd : NodeInfo} (h : wfNode nd = true) :
    nd.leadStart.getD nd.start ≤ nd.start := by
  simp only [wfNode, Bool.and_eq_true, decide_eq_true_eq] at h
  exact h.1

theorem wfNode_le₂ {nd : NodeInfo} (h : wfNode nd = true) : nd.start ≤ nd.stop := by
  simp only [wfNode, Bool.and_eq_true, decide_eq_true_eq] at h
  exact h.2

theorem rangeOf_le {nd : NodeInfo} (h : wfNode nd = true) :
    (rangeOf nd).1 ≤ (rangeOf nd).2 :=
  le_trans (wfNode_le₁ h) (wfNode_le₂ h)

theorem primaryCut_le {ast : Ast} {p : String} {s e : Nat}
    (hwf : wfAst ast = true) (h : primaryCut ast p = some (s, e)) : s ≤ e := by
  unfold primaryCut at h
  by_cases hi : p = "$imports"
  · rw [if_pos hi] at h
    rcases hf : ast.topStmts.filter isImportStmt with _ | ⟨first, rest⟩
    · rw [hf] at h; cases h
    · rw [hf] at h
      have hs : s = first.node.start := (Prod.mk.injEq _ _ _ _ ▸ Option.some.inj h).1.symm
      have he : e = (lastD first (first :: rest)).node.stop :=
        (Prod.mk.injEq _ _ _ _ ▸ Option.some.inj h).2.symm
      have hfirstF : first ∈ ast.topStmts.filter isImportStmt := by
        rw [hf]; exact List.mem_cons_self _ _
      have hfirstT : first ∈ ast.topStmts := List.mem_of_mem_filter hfirstF
      have hwf1 := wf_top hwf first hfirstT
      rcases List.mem_cons.mp (lastD_mem first first rest) with hl | hl
      · rw [hs, he, hl]
        exact wfNode_le₂ hwf1
      · have hlastF : lastD first (first :: rest) ∈ ast.topStmts.filter isImportStmt := by
          rw [hf]; exact List.mem_cons_of_mem _ hl
        have hlastT : lastD first (first :: rest) ∈ ast.topStmts :=
          List.mem_of_mem_filter hlastF
        have hwf2 := wf_top hwf _ hlastT
        have hsub : List.Sublist
            ((ast.topStmts.filter isImportStmt).map (fun st => st.node))
            (ast.topStmts.map (fun st => st.node)) :=
          (List.filter_sublist _).map _
        have hpair := (wf_pairwise hwf).sublist hsub
        rw [hf] at hpair
        simp only [List.map_cons, List.pairwise_cons] at hpair
        have hmid : first.node.stop ≤ (lastD first (first :: rest)).node.start :=
          hpair.1 _ (List.mem_map.mpr ⟨_, hl, rfl⟩)
        rw [hs, he]
        exact le_trans (wfNode_le₂ hwf1) (le_trans hmid (wfNode_le₂ hwf2))
  · rw [if_neg hi] at h
    rcases Option.map_eq_some'.mp h with ⟨st, hfind, hrange⟩
    have hst : st ∈ ast.topStmts := List.mem_of_find?_eq_some hfind
    have := rangeOf_le (wf_top hwf st hst)
    rw [hrange] at this
    exact this

theorem lineCut_le {code : String} {ast : Ast} {p : String} {s e : Nat}
    (hwf : wfAst ast = true) (h : lineCut code ast p = some (s, e)) : s ≤ e := by
  unfold lineCut at h
  split at h
  · split at h
    · split at h
      · cases h
      · split at h
        · cases h
        · rename_i target heq nd hnd
          split at h
          · have hmem : nd ∈ ast.dfsNodes := List.mem_of_find?_eq_some hnd
            have := rangeOf_le (wf_dfs hwf nd hmem)
            rw [Option.some.inj h] at this
            exact this
          · cases h
    · cases h
  · cases h

theorem lineCut_linePathForm {code : String} {ast : Ast} {p : String} {c : Nat × Nat}
    (h : lineCut code ast p = some c) : jsStartsWith p "$line:" = true := by
  unfold lineCut at h
  split at h
  · assumption
  · cases h

/-- Claim C5 amended: the trim-and-rejoin policy applies only to matching
`$line` replacements.  A navigational path that is neither `$imports` nor
a `$line` path (hence a declared name) always resolves through the
primary cut and is spliced raw, with the surrounding text byte-for-byte
untouched and no inserted newlines; `$imports` behaves the same whenever
imports exist; only a successful `$line` match produces the
trimmed two-newline rejoin. -/
theorem c5_amended (code : String) (ast : Ast) :
    (∀ p, p ∈ getNavigationalPaths code ast → p ≠ "$imports" →
      jsStartsWith p "$line:" = false →
      ∀ newText, ∃ s e, primaryCut ast p = some (s, e) ∧
        replaceBlockByPath code ast p newText =
          jsSub code 0 s ++ newText ++ jsSubFrom code e) ∧
    (ast.topStmts.filter isImportStmt ≠ [] →
      ∀ newText, ∃ s e, primaryCut ast "$imports" = some (s, e) ∧
        replaceBlockByPath code ast "$imports" newText =
          jsSub code 0 s ++ newText ++ jsSubFrom code e) ∧
    (∀ p s e newText, primaryCut ast p = none → lineCut code ast p = some (s, e) →
      replaceBlockByPath code ast p newText =
        jsTrimEnd (jsSub code 0 s) ++ "\n\n" ++ jsTrim newText ++ "\n\n" ++
          jsTrimStart (jsSubFrom code e)) := by
  refine ⟨?_, ?_, ?_⟩
  · intro p hp hne hnl newText
    rcases paths_mem hp with ⟨ln, hblk⟩
    rcases navBlocks_mem _ _ _ hblk with h | ⟨st, hst, hdp⟩ | h
    · exact absurd h hne
    · have hm := stmtMatches_of_declPath hdp
      have hsome : (ast.topStmts.find? (stmtMatches p)).isSome :=
        List.find?_isSome.mpr ⟨st, hst, hm⟩
      rcases Option.isSome_iff_exists.mp hsome with ⟨st', hfind⟩
      refine ⟨(rangeOf st'.node).1, (rangeOf st'.node).2, ?_, ?_⟩
      · unfold primaryCut
        rw [if_neg hne, hfind]
        rfl
      · unfold replaceBlockByPath primaryCut
        rw [if_neg hne, hfind]
        rfl
    · rw [h] at hnl; cases hnl
  · intro himp newText
    rcases hf : ast.topStmts.filter isImportStmt with _ | ⟨first, rest⟩
    · exact absurd hf himp
    · refine ⟨first.node.start, (lastD first (first :: rest)).node.stop, ?_, ?_⟩
      · unfold primaryCut
        rw [if_pos rfl, hf]
      · unfold replaceBlockByPath primaryCut
        rw [if_pos rfl, hf]
  · intro p s e newText hpc hlc
    unfold replaceBlockByPath
    rw [hpc, hlc]

/-- Claim C3 amended: replacing any navigational path with the source
text of the block the path actually resolves to (leading comments
included) is the identity on the file — byte-for-byte for declared names
and `$imports` (indeed for every path not of the `$line:` form), and
up to the trim-and-rejoin whitespace normalization (the non-whitespace
character sequence is preserved exactly) for `$line` paths. -/
theorem c3_amended (code : String) (ast : Ast) (hwf : wfAst ast = true)
    (p : String) (_hp : p ∈ getNavigationalPaths code ast) :
    (jsStartsWith p "$line:" = false →
      replaceBlockByPath code ast p (originalBlockText code ast p) = code) ∧
    nonWs (replaceBlockByPath code ast p (originalBlockText code ast p)) =
      nonWs code := by
  rcases hpc : primaryCut ast p with _ | ⟨s, e⟩
  · rcases hlc : lineCut code ast p with _ | ⟨s, e⟩
    · have hrepl : replaceBlockByPath code ast p (originalBlockText code ast p) = code := by
        unfold replaceBlockByPath
        rw [hpc, hlc]
      exact ⟨fun _ => hrepl, by rw [hrepl]⟩
    · have hob : originalBlockText code ast p = jsSub code s e := by
        unfold originalBlockText resolvedCut
        rw [hpc, hlc]
      have hrepl : replaceBlockByPath code ast p (originalBlockText code ast p) =
          jsTrimEnd (jsSub code 0 s) ++ "\n\n" ++ jsTrim (jsSub code s e) ++ "\n\n" ++
            jsTrimStart (jsSubFrom code e) := by
        unfold replaceBlockByPath
        rw [hpc, hlc, hob]
      constructor
      · intro hfalse
        rw [lineCut_linePathForm hlc] at hfalse
        cases hfalse
      · rw [hrepl]
        have hid := splice_id code s e (lineCut_le hwf hlc)
        conv_rhs => rw [← hid]
        simp only [nonWs_append, nonWs_trimEnd, nonWs_trim, nonWs_trimStart,
          nonWs_nl2, List.append_nil, List.append_assoc, List.nil_append]
  · have hob : originalBlockText code ast p = jsSub code s e := by
      unfold originalBlockText resolvedCut
      rw [hpc]
    have hrepl : replaceBlockByPath code ast p (originalBlockText code ast p) =
        jsSub code 0 s ++ jsSub code s e ++ jsSubFrom code e := by
      unfold replaceBlockByPath
      rw [hpc, hob]
    have hassoc : jsSub code 0 s ++ jsSub code s e ++ jsSubFrom code e =
        jsSub code 0 s ++ (jsSub code s e ++ jsSubFrom code e) := by
      apply strExt
      simp [strData_append, List.append_assoc]
    have hid : replaceBlockByPath code ast p (originalBlockText code ast p) = code := by
      rw [hrepl, hassoc, splice_id code s e (primaryCut_le hwf hpc)]
    exact ⟨fun _ => hid, by rw [hid]⟩

/-! ## Helper lemmas: `$line` path arithmetic -/

theorem ofChars_data (s : String) : ofChars s.data = s := rfl

theorem splitChars_ne_nil (sep : Char) : ∀ (l acc : List Char), splitChars sep acc l ≠ [] := by
  intro l
  induction l with
  | nil => intro acc; simp [splitChars]
  | cons c cs ih =>
    intro acc
    by_cases h : c = sep
    · simp [splitChars, h]
    · simp only [splitChars, if_neg h]
      exact ih (c :: acc)

theorem splitChars_sep_append (l2 : List Char) :
    ∀ (l1 acc : List Char), (∀ c ∈ l1, c ≠ ':') →
      splitChars ':' acc (l1 ++ ':' :: l2) =
        ofChars (acc.reverse ++ l1) :: splitChars ':' [] l2 := by
  intro l1
  induction l1 with
  | nil => intro acc h; simp [splitChars]
  | cons c t ih =>
    intro acc h
    have hc : c ≠ ':' := h c (List.mem_cons_self c t)
    show splitChars ':' acc (c :: (t ++ ':' :: l2)) = _
    simp only [splitChars, if_neg hc]
    rw [ih (c :: acc) (fun x hx => h x (List.mem_cons_of_mem c hx))]
    simp [List.append_assoc]

theorem jsSplit_sep_append (a b : String) (ha : ∀ c ∈ a.data, c ≠ ':') :
    jsSplit (a ++ ":" ++ b) ':' = a :: jsSplit b ':' := by
  unfold jsSplit
  have hdata : (a ++ ":" ++ b).data = a.data ++ ':' :: b.data := by
    rw [strData_append, strData_append, List.append_assoc]
    rfl
  rw [hdata, splitChars_sep_append _ _ _ ha]
  simp [ofChars_data]

theorem joinColon_splitChars : ∀ (l acc : List Char),
    joinWith ":" (splitChars ':' acc l) = ofChars (acc.reverse ++ l) := by
  intro l
  induction l with
  | nil => intro acc; simp [splitChars, joinWith]
  | cons c cs ih =>
    intro acc
    by_cases hc : c = ':'
    · subst hc
      have hstep : splitChars ':' acc (':' :: cs) =
          ofChars acc.reverse :: splitChars ':' [] cs := by
        simp [splitChars]
      rw [hstep]
      rcases hsp : splitChars ':' ([] : List Char) cs with _ | ⟨x, t⟩
      · exact absurd hsp (splitChars_ne_nil ':' cs [])
      · rw [show joinWith ":" (ofChars acc.reverse :: x :: t) =
            ofChars acc.reverse ++ ":" ++ joinWith ":" (x :: t) from rfl]
        rw [← hsp, ih []]
        apply strExt
        simp [strData_append, data_ofChars]
    · simp only [splitChars, if_neg hc]
      rw [ih (c :: acc)]
      simp [List.append_assoc]

theorem joinColon_split (s : String) : joinWith ":" (jsSplit s ':') = s := by
  unfold jsSplit
  rw [joinColon_splitChars]
  rfl

theorem findSub_colon_isSome : ∀ (l : List Char) (i : Nat), ':' ∈ l →
    (findSubAux [':'] l i).isSome = true := by
  intro l
  induction l with
  | nil => intro i h; cases h
  | cons c cs ih =>
    intro i h
    by_cases hcc : c = ':'
    · subst hcc
      simp [findSubAux, List.isPrefixOf]
    · have hb : (':' == c) = false := beq_eq_false_iff_ne.mpr (fun he => hcc he.symm)
      have hpre : ([':'] : List Char).isPrefixOf (c :: cs) = false := by
        simp [List.isPrefixOf, hb]
      simp only [findSubAux, hpre, Bool.false_eq_true, if_false]
      rcases List.mem_cons.mp h with h | h
      · exact absurd h.symm hcc
      · exact ih (i + 1) h

theorem includes_colon_of_mem {s : String} (h : ':' ∈ s.data) :
    jsIncludes s ":" = true := by
  unfold jsIncludes jsIndexOf
  exact findSub_colon_isSome s.data 0 h

theorem not_mem_colon {s : String} (h : jsIncludes s ":" = false) : ':' ∉ s.data := by
  intro hm
  rw [includes_colon_of_mem hm] at h
  cases h

theorem lineNe_imports (rest : String) : "$line:" ++ rest ≠ "$imports" := by
  intro h
  have h2 : ("$line:" ++ rest).data = ("$imports" : String).data := congrArg String.data h
  rw [strData_append] at h2
  have h3 : ("$line:" : String).data = ['$', 'l', 'i', 'n', 'e', ':'] := rfl
  have h4 : ("$imports" : String).data = ['$', 'i', 'm', 'p', 'o', 'r', 't', 's'] := rfl
  rw [h3, h4] at h2
  simp at h2

theorem primaryCut_none_of_colon {ast : Ast} (hwf : wfAst ast = true)
    {p : String} (hcolon : ':' ∈ p.data) (hne : p ≠ "$imports") :
    primaryCut ast p = none := by
  unfold primaryCut
  rw [if_neg hne]
  have hfind : ast.topStmts.find? (stmtMatches p) = none := by
    apply List.find?_eq_none.mpr
    intro st hst hm
    have hname := stmtMatches_name hm
    have hni := wf_names hwf st hst p hname
    rw [includes_colon_of_mem hcolon] at hni
    cases hni
  rw [hfind]
  rfl

/-- Claim C8: a `$line:<n>:<content>` path is self-validating — when the
trimmed raw source of the first AST node starting on line `n` differs
from the content suffix of the path (which the navigational-path grammar
defines to be trimmed source, hence `jsTrim content = content`), the
replacement returns the file unchanged and the new text is never
spliced in.  The Babel-parser facts used (`wfAst`): node offsets are
consistent and declared names are identifiers, so contain no colon. -/
theorem c8_line_mismatch_rejected (code : String) (ast : Ast) (hwf : wfAst ast = true)
    (nstr content : String) (n : Int)
    (hn : jsParseInt nstr = some n)
    (hnc : jsIncludes nstr ":" = false)
    (hct : jsTrim content = content)
    (nd : NodeInfo) (hnd : firstNodeOnLine ast n = some nd)
    (hmis : jsTrim (jsSub code nd.start nd.stop) ≠ content)
    (newText : String) :
    replaceBlockByPath code ast ("$line:" ++ nstr ++ ":" ++ content) newText = code := by
  have hform : "$line:" ++ nstr ++ ":" ++ content =
      "$line:" ++ (nstr ++ ":" ++ content) := by
    apply strExt
    simp [strData_append, List.append_assoc]
  have hre : "$line:" ++ nstr ++ ":" ++ content =
      "$line" ++ ":" ++ (nstr ++ ":" ++ content) := by
    apply strExt
    simp [strData_append, List.append_assoc]
  have hne : "$line:" ++ nstr ++ ":" ++ content ≠ "$imports" := by
    rw [hform]; exact lineNe_imports _
  have hcolon : ':' ∈ ("$line:" ++ nstr ++ ":" ++ content).data := by
    rw [hform, strData_append]
    have : ':' ∈ ("$line:" : String).data := by decide
    exact List.mem_append_left _ this
  have hpc := primaryCut_none_of_colon hwf hcolon hne
  have hsplit : jsSplit ("$line:" ++ nstr ++ ":" ++ content) ':' =
      "$line" :: nstr :: jsSplit content ':' := by
    rw [hre, jsSplit_sep_append _ _ (by decide),
      jsSplit_sep_append _ _ (fun c hc he => not_mem_colon hnc (he ▸ hc))]
  have hstarts : jsStartsWith ("$line:" ++ nstr ++ ":" ++ content) "$line:" = true := by
    rw [hform]; exact jsStartsWith_append _ _
  have hlen : (jsSplit ("$line:" ++ nstr ++ ":" ++ content) ':').length ≥ 3 := by
    rw [hsplit]
    have : jsSplit content ':' ≠ [] := splitChars_ne_nil ':' content.data []
    have hpos : 0 < (jsSplit content ':').length := List.length_pos.mpr this
    simp only [List.length_cons]
    omega
  have htc : jsTrim (joinWith ":" ((jsSplit ("$line:" ++ nstr ++ ":" ++ content) ':').drop 2)) =
      content := by
    rw [hsplit]
    simp only [List.drop_succ_cons, List.drop_zero]
    rw [joinColon_split]
    exact hct
  have hlc : lineCut code ast ("$line:" ++ nstr ++ ":" ++ content) = none := by
    unfold lineCut
    rw [if_pos hstarts, if_pos hlen, hsplit]
    simp only [List.getD_cons_succ, List.getD_cons_zero, hn, hnd,
      List.drop_succ_cons, List.drop_zero, joinColon_split, hct]
    exact if_neg hmis
  unfold replaceBlockByPath
  rw [hpc, hlc]

/-! ## Helper lemmas: association lists, backups, walks -/

theorem assocLookup_append_right {α : Type} {l : List (String × α)} {p : String}
    (h : assocLookup l p = none) (v : α) :
    assocLookup (l ++ [(p, v)]) p = some v := by
  induction l with
  | nil => simp [assocLookup]
  | cons x xs ih =>
    obtain ⟨q, w⟩ := x
    by_cases hx : q = p
    · rw [assocLookup, if_pos hx] at h
      cases h
    · rw [assocLookup, if_neg hx] at h
      rw [List.cons_append, assocLookup, if_neg hx]
      exact ih h

theorem assocLookup_mapSet {p : String} {c : String} :
    ∀ (proj : FileMap) (v : String), assocLookup proj p = some v →
      assocLookup (proj.map (fun f => if f.1 = p then (p, c) else f)) p = some c := by
  intro proj
  induction proj with
  | nil => intro v h; cases h
  | cons x xs ih =>
    intro v h
    obtain ⟨q, w⟩ := x
    by_cases hx : q = p
    · subst hx
      rw [List.map_cons]
      rw [show (if (q, w).1 = q then (q, c) else (q, w)) = (q, c) from by simp]
      rw [assocLookup, if_pos rfl]
    · rw [assocLookup, if_neg hx] at h
      simp only [List.map_cons]
      rw [if_neg hx, assocLookup, if_neg hx]
      exact ih v h

theorem assocLookup_setFile (proj : FileMap) (p c : String) :
    assocLookup (setFile proj p c) p = some c := by
  unfold setFile
  cases h : assocLookup proj p with
  | none => exact assocLookup_append_right h c
  | some v => exact assocLookup_mapSet proj v h

theorem createBackup_project (sys : Sys) (name : String) :
    (createBackup sys name).2.project = sys.project := by
  unfold createBackup
  by_cases h : backupSkip sys = true
  · rw [if_pos h]
  · rw [if_neg h]

theorem charsLt_irrefl : ∀ (l : List Char), charsLt l l = false := by
  intro l
  induction l with
  | nil => rfl
  | cons c cs ih => simp [charsLt, ih]

theorem strLtB_ne {a b : String} (h : strLtB a b = true) : a ≠ b := by
  intro he
  subst he
  rw [strLtB, charsLt_irrefl] at h
  cases h

theorem maxString_append_gt {names : List String} {m : String}
    (h : ∀ n ∈ names, strLtB n m = true) :
    maxString (names ++ [m]) = some m := by
  induction names with
  | nil => rfl
  | cons x xs ih =>
    have hx := h x (List.mem_cons_self x xs)
    have hxs := ih (fun n hn => h n (List.mem_cons_of_mem x hn))
    simp only [List.cons_append, maxString, List.append_eq, hxs, strMax, hx, if_true]

theorem assocLookup_none_of_lt {l : List (String × FileMap)} {m : String}
    (h : ∀ n ∈ l.map (fun b => b.1), strLtB n m = true) :
    assocLookup l m = none := by
  induction l with
  | nil => rfl
  | cons x xs ih =>
    obtain ⟨q, w⟩ := x
    have hx : q ≠ m := strLtB_ne (h q (by simp))
    rw [assocLookup, if_neg hx]
    exact ih (fun n hn => h n (by simp at hn ⊢; exact Or.inr hn))

theorem areDirectoriesEqual_self (files : FileMap) :
    areDirectoriesEqual files files = true := by
  unfold areDirectoriesEqual
  simp [List.all_eq_true]

/-- A failing read of a non-excluded file rejects the whole walk. -/
theorem walkForSummary_error {pats : List String} :
    ∀ (fs : Fs) (p : String), (p, Except.error ()) ∈ fs →
      walkExcluded pats p = false →
      walkForSummary pats fs = Except.error () := by
  intro fs
  induction fs with
  | nil => intro p h; cases h
  | cons hd tl ih =>
    intro p hmem hex
    rcases List.mem_cons.mp hmem with h | h
    · rw [← h]
      unfold walkForSummary
      rw [if_neg (by rw [hex]; simp)]
    · obtain ⟨q, r⟩ := hd
      unfold walkForSummary
      by_cases hq : walkExcluded pats q = true
      · rw [if_pos hq]
        exact ih p h hex
      · rw [if_neg hq]
        cases r with
        | error e => cases e; rfl
        | ok c => rw [ih p h hex]

/-- Every file in a successful walk survived the exclusion filter. -/
theorem walk_mem_not_excluded {pats : List String} :
    ∀ (fs : Fs) (files : List (String × String)),
      walkForSummary pats fs = Except.ok files →
      ∀ p c, (p, c) ∈ files → walkExcluded pats p = false := by
  intro fs
  induction fs with
  | nil =>
    intro files hok p c hm
    unfold walkForSummary at hok
    cases hok
    cases hm
  | cons hd tl ih =>
    intro files hok p c hm
    obtain ⟨q, r⟩ := hd
    unfold walkForSummary at hok
    by_cases hq : walkExcluded pats q = true
    · rw [if_pos hq] at hok
      exact ih files hok p c hm
    · rw [if_neg hq] at hok
      cases r with
      | error e => cases hok
      | ok c' =>
        rcases htl : walkForSummary pats tl with _ | tail
        · rw [htl] at hok; cases hok
        · rw [htl] at hok
          have : files = (q, c') :: tail := (Except.ok.inj hok).symm
          subst this
          rcases List.mem_cons.mp hm with h | h
          · have : p = q := congrArg Prod.fst h
            rw [this]
            simpa using hq
          · exact ih tail htl p c h

theorem applyLoop_clearBP : ∀ (changes : List FileChange) (proj : FileMap),
    applyLoop (changes.map (fun ch => { ch with blockPath := none })) proj =
      applyLoop changes proj := by
  intro changes
  induction changes with
  | nil => intro proj; rfl
  | cons ch rest ih =>
    intro proj
    simp only [List.map_cons, applyLoop]
    by_cases h1 : ch.file = ""
    · simp [h1, ih]
    · by_cases h2 : ch.type = "delete"
      · simp [h1, h2, ih]
      · cases hc : ch.content with
        | none => simp [h1, h2, hc, ih]
        | some c => simp [h1, h2, hc, ih]

/-- Claim C1 amended: `applyChanges` never consults `blockPath`.  A single
`update` edit with defined content writes that content as the whole file
regardless of its `blockPath` (even one that is a real block path), and
any batch applies identically when every `blockPath` is erased; the
Structural Index's `replaceBlockByPath` is not involved. -/
theorem c1_amended (sys : Sys) (ts f : String) (d : Option String) (c : String)
    (bp : Option String) (hf : f ≠ "") :
    assocLookup (applyChanges [⟨"update", f, d, some c, bp⟩] sys ts).2.project f =
      some c ∧
    ∀ changes : List FileChange,
      applyChanges changes sys ts =
        applyChanges (changes.map (fun ch => { ch with blockPath := none })) sys ts := by
  constructor
  · have hloop : applyLoop [(⟨"update", f, d, some c, bp⟩ : FileChange)] sys.project =
        ([⟨f, d, f⟩], setFile sys.project f c) := by
      unfold applyLoop
      rw [if_neg hf, if_neg (by simp)]
      rfl
    simp only [applyChanges, hloop]
    rw [if_pos (by simp : (([⟨f, d, f⟩] : List ChangeDetail)).length > 0)]
    rw [createBackup_project]
    exact assocLookup_setFile sys.project f c
  · intro changes
    simp only [applyChanges, applyLoop_clearBP]

/-- Claim C4 amended: after an apply with at least one applied edit,
`applyChanges` asks for a snapshot labelled `<timestamp>_ai_change`
without forcing it: when the latest (greatest-named) snapshot equals
the post-apply tracked workspace the snapshot is elided
(`backupCreated = false`, store untouched); otherwise it is created
under that label. -/
theorem c4_amended (changes : List FileChange) (sys : Sys) (ts : String)
    (happ : (applyLoop changes sys.project).1 ≠ []) :
    ((∃ L bf, latestBackupName sys.backups = some L ∧
        assocLookup sys.backups L = some bf ∧
        areDirectoriesEqual
          (trackedFiles (igRules (applyLoop changes sys.project).2)
            (applyLoop changes sys.project).2) bf = true) →
      (applyChanges changes sys ts).1.backupCreated = false ∧
      (applyChanges changes sys ts).2.backups = sys.backups) ∧
    ((∀ L bf, latestBackupName sys.backups = some L →
        assocLookup sys.backups L = some bf →
        areDirectoriesEqual
          (trackedFiles (igRules (applyLoop changes sys.project).2)
            (applyLoop changes sys.project).2) bf = false) →
      (applyChanges changes sys ts).1.backupCreated = true ∧
      (applyChanges changes sys ts).1.backupFolderName = some (ts ++ "_ai_change") ∧
      (applyChanges changes sys ts).2.backups =
        putBackup sys.backups (ts ++ "_ai_change")
          (trackedFiles (igRules (applyLoop changes sys.project).2)
            (applyLoop changes sys.project).2)) := by
  have hlen : (applyLoop changes sys.project).1.length > 0 := List.length_pos.mpr happ
  constructor
  · rintro ⟨L, bf, hL, hbf, heq⟩
    have hskip : backupSkip { sys with project := (applyLoop changes sys.project).2 } = true := by
      simp only [backupSkip, hL, hbf, heq]
    simp only [applyChanges, if_pos hlen]
    unfold createBackup
    rw [if_pos hskip]
    exact ⟨rfl, rfl⟩
  · intro hne
    have hskip : backupSkip { sys with project := (applyLoop changes sys.project).2 } = false := by
      unfold backupSkip
      dsimp only
      rcases hL : latestBackupName sys.backups with _ | L
      · rfl
      · dsimp only
        rcases hbf : assocLookup sys.backups L with _ | bf
        · rfl
        · dsimp only
          exact hne L bf hL hbf
    simp only [applyChanges, if_pos hlen]
    unfold createBackup
    rw [if_neg (by rw [hskip]; simp)]
    exact ⟨rfl, rfl, rfl⟩

/-- Claim C9 amended: `createBackup` is elided exactly when the
greatest-named existing snapshot equals the tracked workspace, and two
consecutive calls with no intervening change create at most one snapshot
provided the first label sorts after every existing backup name (as the
generated timestamp labels do); the counterexample shows the proviso is
needed because "latest" means greatest name, not most recently
created. -/
theorem c9_amended (sys : Sys) (label1 label2 : String)
    (hmax : ∀ n ∈ sys.backups.map (fun b => b.1), strLtB n label1 = true) :
    ((∃ L bf, latestBackupName sys.backups = some L ∧
        assocLookup sys.backups L = some bf ∧
        areDirectoriesEqual (trackedFiles (igRules sys.project) sys.project) bf = true) →
      createBackup sys label1 = ((false, none), sys)) ∧
    (createBackup (createBackup sys label1).2 label2).1.1 = false ∧
    (createBackup (createBackup sys label1).2 label2).2 = (createBackup sys label1).2 := by
  have hcond : ∀ lab, backupSkip sys = true → createBackup sys lab = ((false, none), sys) := by
    intro lab hsk
    unfold createBackup
    rw [if_pos hsk]
  refine ⟨?_, ?_⟩
  · rintro ⟨L, bf, hL, hbf, heq⟩
    exact hcond label1 (by simp only [backupSkip, hL, hbf, heq])
  · by_cases hsk : backupSkip sys = true
    · rw [hcond label1 hsk]
      rw [hcond label2 hsk]
      exact ⟨rfl, rfl⟩
    · have h1 : createBackup sys label1 = ((true, some label1),
          { sys with backups :=
            (putBackup sys.backups label1
              (trackedFiles (igRules sys.project) sys.project)) }) := by
        unfold createBackup
        rw [if_neg hsk]
      have hput : putBackup sys.backups label1
          (trackedFiles (igRules sys.project) sys.project) =
          sys.backups ++ [(label1, trackedFiles (igRules sys.project) sys.project)] := by
        unfold putBackup
        rw [assocLookup_none_of_lt hmax]
      have hnames : (sys.backups ++
          [(label1, trackedFiles (igRules sys.project) sys.project)]).map (fun b => b.1) =
          sys.backups.map (fun b => b.1) ++ [label1] := by
        simp
      have hlat : latestBackupName (sys.backups ++
          [(label1, trackedFiles (igRules sys.project) sys.project)]) = some label1 := by
        unfold latestBackupName
        rw [hnames]
        exact maxString_append_gt hmax
      have hlook : assocLookup (sys.backups ++
          [(label1, trackedFiles (igRules sys.project) sys.project)]) label1 =
          some (trackedFiles (igRules sys.project) sys.project) :=
        assocLookup_append_right (assocLookup_none_of_lt hmax) _
      have hskip2 : backupSkip { sys with backups :=
          (sys.backups ++ [(label1, trackedFiles (igRules sys.project) sys.project)]) } = true := by
        simp only [backupSkip, hlat, hlook]
        exact areDirectoriesEqual_self _
      rw [h1, hput]
      have h2 : createBackup { sys with backups :=
          (sys.backups ++ [(label1, trackedFiles (igRules sys.project) sys.project)]) } label2 =
          ((false, none), { sys with backups :=
            (sys.backups ++ [(label1, trackedFiles (igRules sys.project) sys.project)]) }) := by
        unfold createBackup
        rw [if_pos hskip2]
      rw [h2]
      exact ⟨rfl, rfl⟩

/-- Claim C6 amended: the Workspace Reader's exclusion set comes from
`.aiignore` alone — a path matched by any pattern derived from the
root `.aiignore` file is absent from the digest.  (`.gitignore` is
consulted by the Snapshot Store's `getIgnoreInstance`, not by the
Reader; the counterexample shows a `.gitignore`-only rule does not
exclude.) -/
theorem c6_amended (fs : Fs) (p pat : String)
    (hpat : pat ∈ readerPatterns fs) (hm : miniMatch p pat = true) :
    p ∉ (createProjectSummary fs).includedFiles := by
  intro hin
  unfold createProjectSummary at hin
  rcases hok : walkForSummary (readerPatterns fs) fs with e | files
  · rw [hok] at hin
    simp at hin
  · rw [hok] at hin
    dsimp only at hin
    rcases List.mem_map.mp hin with ⟨⟨q, c⟩, hq, hfst⟩
    have hqp : q = p := hfst
    subst hqp
    have hex := walk_mem_not_excluded fs files hok q c hq
    unfold walkExcluded at hex
    rw [Bool.or_eq_false_iff] at hex
    have hany : (readerPatterns fs).any (fun pt => miniMatch q pt) = true :=
      List.any_eq_true.mpr ⟨pat, hpat, hm⟩
    rw [hany] at hex
    exact absurd hex.1 (by simp)

/-- Claim C7 amended: a failing read of any single non-excluded file makes
`createProjectSummary` return the empty digest — the rejection propagates
through the whole walk and is caught only at the top, so no other file
survives into the result. -/
theorem c7_amended (fs : Fs) (p : String)
    (hmem : (p, Except.error ()) ∈ fs)
    (hex : walkExcluded (readerPatterns fs) p = false) :
    createProjectSummary fs = ⟨"", [], []⟩ := by
  unfold createProjectSummary
  rw [walkForSummary_error fs p hmem hex]

/-! ## Witnesses -/

/-- Witness for C1: the applier wrote the content of the edit as the whole
file although the edit carried the block path `greet`. -/
theorem c1_witness :
    assocLookup (applyChanges [⟨"update", "a.ts", none, some "NEW", some "greet"⟩]
        (⟨[("a.ts", "old")], []⟩ : Sys) "T").2.project "a.ts" = some "NEW" :=
  (c1_amended ⟨[("a.ts", "old")], []⟩ "T" "a.ts" none "NEW" (some "greet")
    (by decide)).1

/-- Witness for C3: replacing `greet` in the S1 file with the source of
the block it resolves to reproduces the file byte-for-byte. -/
theorem c3_witness :
    replaceBlockByPath s1Code s1Ast "greet" (originalBlockText s1Code s1Ast "greet") =
      s1Code :=
  (c3_amended s1Code s1Ast (by decide) "greet" (by decide)).1 (by decide)

/-- Witness for C4: with no pre-existing snapshot, the post-apply call
creates a snapshot labelled `T_ai_change`. -/
theorem c4_witness :
    (applyChanges [⟨"update", "a.ts", none, some "NEW", none⟩]
        (⟨[("a.ts", "x")], []⟩ : Sys) "T").1.backupCreated = true ∧
    (applyChanges [⟨"update", "a.ts", none, some "NEW", none⟩]
        (⟨[("a.ts", "x")], []⟩ : Sys) "T").1.backupFolderName = some "T_ai_change" := by
  have h := (c4_amended [⟨"update", "a.ts", none, some "NEW", none⟩]
      ⟨[("a.ts", "x")], []⟩ "T" (by decide)).2 (by
    intro L bf hL hbf
    simp [latestBackupName, maxString] at hL)
  exact ⟨h.1, h.2.1⟩

/-- Witness for C5: the named path `greet` of the S1 file resolves to a
primary cut and is spliced raw. -/
theorem c5_witness :
    ∃ s e, primaryCut s1Ast "greet" = some (s, e) ∧
      replaceBlockByPath s1Code s1Ast "greet" s1NewGreet =
        jsSub s1Code 0 s ++ s1NewGreet ++ jsSubFrom s1Code e :=
  (c5_amended s1Code s1Ast).1 "greet" (by decide) (by decide) (by decide) s1NewGreet

/-- Witness for C6: the `.aiignore` rule `secret.txt` (expanded to
`**/secret.txt`) excludes `secret.txt` from the digest. -/
theorem c6_witness :
    ("**/secret.txt" ∈ readerPatterns
        [(".aiignore", Except.ok "secret.txt"), ("secret.txt", Except.ok "s"),
         ("a.txt", Except.ok "A")]) ∧
    "secret.txt" ∉ (createProjectSummary
        [(".aiignore", Except.ok "secret.txt"), ("secret.txt", Except.ok "s"),
         ("a.txt", Except.ok "A")]).includedFiles :=
  ⟨by decide, c6_amended _ "secret.txt" "**/secret.txt" (by decide) (by decide)⟩

/-- Witness for C7: one failing read empties the whole digest. -/
theorem c7_witness :
    createProjectSummary [("ok.ts", Except.ok "fine"), ("bad.ts", Except.error ())] =
      ⟨"", [], []⟩ :=
  c7_amended _ "bad.ts" (by simp) (by decide)

/-- Witness for C8, scenario S3: a `$line:1:...` path whose content does
not match `console.log("old");` leaves the file unchanged. -/
theorem c8_witness :
    replaceBlockByPath s3Code s3Ast
      ("$line:" ++ "1" ++ ":" ++ "console.log(\"different\")") "newText()" = s3Code :=
  c8_line_mismatch_rejected s3Code s3Ast (by decide) "1" "console.log(\"different\")" 1
    (by decide) (by decide) (by decide) ⟨1, 0, 19, none⟩ (by decide) (by decide)
    "newText()"

/-- Witness for C9: with an empty backup store, the second of two
consecutive calls is a no-op. -/
theorem c9_witness :
    (createBackup (createBackup (⟨[("a.txt", "x")], []⟩ : Sys) "A").2 "B").1.1 = false ∧
    (createBackup (createBackup (⟨[("a.txt", "x")], []⟩ : Sys) "A").2 "B").2 =
      (createBackup (⟨[("a.txt", "x")], []⟩ : Sys) "A").2 := by
  have h := c9_amended ⟨[("a.txt", "x")], []⟩ "A" "B" (by intro n hn; simp at hn)
  exact ⟨h.2.1, h.2.2⟩

/-! ## Model of `fast-xml-parser` and `parseXmlChanges` (`aiService.ts`)

The library call
`new XMLParser({ ignoreAttributes: false, attributeNamePrefix: "", cdataPropName: "__cdata" }).parse(xmlString)`
is modelled in two stages: a small recursive-descent XML reader
(`parseNodesF`, fuelled by the input length) producing an `XmlNode`
tree, and the library's documented tree-to-object conversion
(`fxpValueF`): repeated child tags group into arrays, a text-only
element collapses to its (trimmed) string, attributes become plain
fields, and a CDATA section becomes the `__cdata` field of the element
that directly contains it — which is why the legacy branch of
`parseXmlChanges`, reading `change.__cdata` instead of
`change.content.__cdata`, always yields the empty string. -/

inductive XmlNode where
  | elem (name : String) (attrs : List (String × String)) (children : List XmlNode)
  | txt (s : String)
  | cdata (s : String)
  deriving Repr

inductive JValue where
  | str (s : String)
  | arr (els : List JValue)
  | obj (fields : List (String × JValue))
  deriving Repr

def takeUntilSub (pat : List Char) : List Char → List Char
  | [] => []
  | c :: cs => if pat.isPrefixOf (c :: cs) then [] else c :: takeUntilSub pat cs

def findAfterSub (pat : List Char) : List Char → Option (List Char)
  | [] => none
  | c :: cs =>
    if pat.isPrefixOf (c :: cs) then some ((c :: cs).drop pat.length)
    else findAfterSub pat cs

def splitAtSub (pat : List Char) (l : List Char) : Option (List Char × List Char) :=
  match findAfterSub pat l with
  | none => none
  | some after => some (takeUntilSub pat l, after)

def parseAttrs : Nat → List Char → List (String × String) × List Char
  | 0, cs => ([], cs)
  | fuel + 1, cs =>
    let cs1 := cs.dropWhile isJsWs
    match cs1 with
    | [] => ([], [])
    | '>' :: _ => ([], cs1)
    | '/' :: _ => ([], cs1)
    | _ =>
      let name := cs1.takeWhile (fun c => c ≠ '=' && c ≠ '>' && !isJsWs c)
      let rest := cs1.drop name.length
      match rest with
      | '=' :: '"' :: r2 =>
        let v := r2.takeWhile (fun c => c ≠ '"')
        let r3 := r2.drop (v.length + 1)
        let (as, r4) := parseAttrs fuel r3
        ((ofChars name, ofChars v) :: as, r4)
      | _ => ([], rest)

def dropClosing (name : List Char) (cs : List Char) : List Char :=
  if ('<' :: '/' :: (name ++ ['>'])).isPrefixOf cs then cs.drop (name.length + 3)
  else cs

def parseNodesF : Nat → List Char → List XmlNode × List Char
  | 0, cs => ([], cs)
  | fuel + 1, cs =>
    match cs with
    | [] => ([], [])
    | '<' :: '/' :: _ => ([], cs)
    | '<' :: '!' :: _ =>
      if "<![CDATA[".data.isPrefixOf cs then
        let r0 := cs.drop 9
        let body := takeUntilSub "]]>".data r0
        let r1 := r0.drop (body.length + 3)
        let (ns, r2) := parseNodesF fuel r1
        (XmlNode.cdata (ofChars body) :: ns, r2)
      else ([], cs)
    | '<' :: rest =>
      let name := rest.takeWhile (fun c => c ≠ '>' && c ≠ '/' && !isJsWs c)
      let r0 := rest.drop name.length
      let (attrs, r1) := parseAttrs fuel r0
      match r1 with
      | '/' :: '>' :: r2 =>
        let (ns, r3) := parseNodesF fuel r2
        (XmlNode.elem (ofChars name) attrs [] :: ns, r3)
      | '>' :: r2 =>
        let (children, r3) := parseNodesF fuel r2
        let r4 := dropClosing name r3
        let (ns, r5) := parseNodesF fuel r4
        (XmlNode.elem (ofChars name) attrs children :: ns, r5)
      | _ => ([], r1)
    | _ =>
      let t := cs.takeWhile (fun c => c ≠ '<')
      let (ns, r1) := parseNodesF fuel (cs.drop t.length)
      (XmlNode.txt (ofChars t) :: ns, r1)

def isElemNode : XmlNode → Bool
  | XmlNode.elem _ _ _ => true
  | _ => false

/-- The XML-string-to-tree stage of the library model; `none` when no
root element is found. -/
def xmlParseModel (s : String) : Option XmlNode :=
  ((parseNodesF (s.data.length + 1) (s.data.dropWhile isJsWs)).1.find? isElemNode)

def elemNameOf : XmlNode → Option String
  | XmlNode.elem n _ _ => some n
  | _ => none

def isElemNamed (n : String) : XmlNode → Bool
  | XmlNode.elem m _ _ => m = n
  | _ => false

def cdataTextOf : XmlNode → Option String
  | XmlNode.cdata s => some s
  | _ => none

def txtTextOf : XmlNode → Option String
  | XmlNode.txt s => some s
  | _ => none

/-- The tree-to-object conversion of the library model (fuelled by tree
depth; every use below passes a fuel exceeding the input's depth). -/
def fxpValueF : Nat → XmlNode → JValue
  | 0, _ => JValue.str ""
  | _ + 1, XmlNode.txt s => JValue.str (jsTrim s)
  | _ + 1, XmlNode.cdata s => JValue.str s
  | fuel + 1, XmlNode.elem _ attrs children =>
    let names := dedupFirst (children.filterMap elemNameOf)
    let groups := names.map (fun n =>
      match (children.filter (isElemNamed n)).map (fxpValueF fuel) with
      | [v] => (n, v)
      | vs => (n, JValue.arr vs))
    let cds := children.filterMap cdataTextOf
    let txtAll := jsTrim (String.join (children.filterMap txtTextOf))
    if attrs = [] && names = [] && cds = [] then JValue.str txtAll
    else
      JValue.obj
        ((attrs.map (fun a => (a.1, JValue.str a.2))) ++ groups ++
          (if cds = [] then [] else [("__cdata", JValue.str (String.join cds))]) ++
          (if txtAll = "" then [] else [("#text", JValue.str txtAll)]))

def jGet : JValue → String → Option JValue
  | JValue.obj fields, k => assocLookup fields k
  | _, _ => none

/-- Truthy field access: a missing field and the empty string are both
falsy in the JavaScript conditions. -/
def jGetT (v : JValue) (k : String) : Option JValue :=
  match jGet v k with
  | some (JValue.str "") => none
  | r => r

def jStr : Option JValue → String
  | some (JValue.str s) => s
  | _ => ""

def jOptStr : Option JValue → Option String
  | some (JValue.str s) => some s
  | _ => none

def asArr : JValue → List JValue
  | JValue.arr l => l
  | v => [v]

/-- Models the optional-chain CDATA access with empty-string fallback. -/
def cdataOf (v : JValue) (k : String) : String :=
  match jGet v k with
  | some inner => jStr (jGet inner "__cdata")
  | none => ""

/-- Models `parseXmlChanges` (aiService.ts:634-680).  The block branch reads the
CDATA of the `path`/`content` children; the legacy full-file branch reads
`change.__cdata || ''` — the CDATA directly under `<change>`, not under
its `<content>` child. -/
def parseXmlChanges (xmlString : String) : List FileChange :=
  match xmlParseModel xmlString with
  | none => []
  | some root =>
    match root with
    | XmlNode.txt _ => []
    | XmlNode.cdata _ => []
    | XmlNode.elem rootName attrs children =>
      if rootName ≠ "changes" then []
      else
        let changes := fxpValueF 32 (XmlNode.elem rootName attrs children)
        match jGetT changes "file_update" with
        | some fu =>
          (asArr fu).flatMap (fun update =>
            match jGetT update "operations" with
            | none => []
            | some ops =>
              match jGetT ops "block" with
              | none => []
              | some blocks =>
                (asArr blocks).map (fun block =>
                  ({ type := "update", file := jStr (jGet update "file"),
                     description := jOptStr (jGet update "description"),
                     content := some (cdataOf block "content"),
                     blockPath := some (cdataOf block "path") } : FileChange)))
        | none =>
          match jGetT changes "change" with
          | none => []
          | some ch =>
            (asArr ch).map (fun change =>
              ({ type := (match jGetT change "type" with
                          | some (JValue.str s) => s
                          | _ => "update"),
                 file := jStr (jGet change "file"),
                 description := jOptStr (jGet change "description"),
                 content := some (jStr (jGet change "__cdata")),
                 blockPath := none } : FileChange))

/-- The full-file envelope of the C2 claim. -/
def c2input : String :=
  "<changes><change type=\"update\"><file>a.ts</file><content><![CDATA[hello]]></content></change></changes>"

/-- Claim C2: the legacy full-file branch of `parseXmlChanges` reads the
CDATA property of the wrong node (`change.__cdata` instead of
`change.content.__cdata`, unlike the block branch three lines above), so
the parsed `content` of a well-formed `<change type="update">` record is
the empty string instead of the CDATA payload. -/
theorem c2_cdata_content_dropped :
    parseXmlChanges c2input =
      [⟨"update", "a.ts", none, some "", none⟩] ∧
    (parseXmlChanges c2input).map (fun ch => ch.content) ≠ [some "hello"] := by
  refine ⟨by decide, by decide⟩

/-! ## History Optimizer (`aiService.ts`)

`extractXml` models the regex
`/```xml\s*(<changes>[\s\S]*?<\/changes>)\s*```/` with JavaScript
leftmost-match and lazy-quantifier backtracking semantics: the engine
tries each position of the literal run, forces the whitespace runs (the
neighbouring literals are not whitespace), and closes the lazy middle at
the first `</changes>` that is followed by whitespace and a fence.

`parseUserMessageForFiles` models the block regex of aiService.ts:169 on
composer-generated texts: each `--- START OF FILE <p> ---` header whose
path contains no newline starts a block; the block body runs to the
earliest `\n\n--- START OF FILE` / `\n\n---User Instruction---` boundary
or the end of the text, and an embedded
`\n\n--- AVAILABLE CODE BLOCK PATHS for <p> ---\n` marker splits body
from navigation map.  Entries collect into a JavaScript-object-like map
(later assignment to the same key overwrites in place). -/

def closesFence (l : List Char) : Bool :=
  "```".data.isPrefixOf (l.dropWhile isJsWs)

def scanEnvBody : List Char → Option (List Char)
  | [] => none
  | c :: cs =>
    if "</changes>".data.isPrefixOf (c :: cs) && closesFence ((c :: cs).drop 10) then
      some []
    else (scanEnvBody cs).map (c :: ·)

def tryFenceAt (cs : List Char) : Option String :=
  let cs1 := cs.dropWhile isJsWs
  if "<changes>".data.isPrefixOf cs1 then
    match scanEnvBody (cs1.drop 9) with
    | some mid => some ("<changes>" ++ ofChars mid ++ "</changes>")
    | none => none
  else none

def scanFence : List Char → Option String
  | [] => none
  | c :: cs =>
    if "```xml".data.isPrefixOf (c :: cs) then
      match tryFenceAt ((c :: cs).drop 6) with
      | some inner => some inner
      | none => scanFence cs
    else scanFence cs

/-- Models `extractXml` (aiService.ts:85-88): the fenced envelope, trimmed, or
the empty string. -/
def extractXml (text : String) : String :=
  match scanFence text.data with
  | some inner => jsTrim inner
  | none => ""

def boundaryAt (l : List Char) : Bool :=
  "\n\n--- START OF FILE".data.isPrefixOf l ||
    "\n\n---User Instruction---".data.isPrefixOf l

def takeToBoundary : List Char → List Char
  | [] => []
  | c :: cs => if boundaryAt (c :: cs) then [] else c :: takeToBoundary cs

/-- The `(.*?)` path group: up to the first ` ---\n`, failing when a
newline intervenes (`.` does not match newlines). -/
def pathUntil (l : List Char) : Option (List Char × List Char) :=
  let p := takeUntilSub " ---\n".data l
  if p.length = l.length then none
  else if p.contains '\n' then none
  else some (p, l.drop (p.length + 5))

def pumScan : Nat → List Char → List (String × String × Option String)
  | 0, _ => []
  | fuel + 1, l =>
    match findAfterSub "--- START OF FILE ".data l with
    | none => []
    | some rest =>
      match pathUntil rest with
      | none => pumScan fuel rest
      | some (path, afterHeader) =>
        let seg := takeToBoundary afterHeader
        let rest2 := afterHeader.drop seg.length
        let navMark := "\n\n--- AVAILABLE CODE BLOCK PATHS for ".data ++ path ++
          " ---\n".data
        let entry :=
          match splitAtSub navMark seg with
          | some (body, nav) =>
            (jsTrim (ofChars path), normCRLF (jsTrim (ofChars body)),
              some (normCRLF (jsTrim (ofChars nav))))
          | none => (jsTrim (ofChars path), normCRLF (jsTrim (ofChars seg)), none)
        entry :: pumScan fuel rest2

/-- JavaScript object assignment: overwrite in place, else append. -/
def objInsert {α : Type} (m : List (String × α)) (k : String) (v : α) :
    List (String × α) :=
  if (assocLookup m k).isSome then m.map (fun e => if e.1 = k then (k, v) else e)
  else m ++ [(k, v)]

/-- Models `parseUserMessageForFiles` (aiService.ts:164-180). -/
def parseUserMessageForFiles (messageText : String) :
    List (String × String × Option String) :=
  if jsStartsWith messageText "These are the existing files in the app:" then
    (pumScan (messageText.data.length + 1) messageText.data).foldl
      (fun m e => objInsert m e.1 e.2) []
  else []

def simplifiedXml : String :=
  "<changes><change><file>multiple</file><description>与当前代码一致</description><content><![CDATA[用户已应用本次修改]]></content></change></changes>"

def parsableExtensions : List String := [".ts", ".tsx", ".js", ".jsx"]

/-- Models `currentNavMaps` (aiService.ts:189-200): for each parsable file, the
joined navigational paths, or an explicitly-undefined entry when the
Babel parse (the `oracle` parameter) fails. -/
def navMapsOf (oracle : String → Option Ast) (fm : List (String × String)) :
    List (String × Option String) :=
  (fm.filter (fun e => parsableExtensions.any (fun ext => jsEndsWith e.1 ext))).map
    (fun e => (e.1, (oracle e.2).map
      (fun ast => joinWith "\n" (getNavigationalPaths e.2 ast))))

/-- Models the trim-then-normalize-CRLF composition used by the
comparisons. -/
def normTrim (s : String) : String := normCRLF (jsTrim s)

/-- Models `String(x)` on an optional string. -/
def jsStringOf : Option String → String
  | none => "undefined"
  | some s => s

structure ChatMsg where
  role : String
  parts : List String
  deriving Repr, DecidableEq

structure GphConfig where
  optimizeCodeContext : Bool
  deriving Repr, DecidableEq

/-- Models `---User Instruction---([\s\S]*)` match, trimmed, else the empty
string. -/
def instrSuffix (text : String) : String :=
  match findAfterSub "---User Instruction---".data text.data with
  | some rest => jsTrim (ofChars rest)
  | none => ""

/-- One iteration of the `getProcessedHistory` loop body
(aiService.ts:204-282) on one message: `some` returns the (possibly
replaced) message and the loop continues; `none` is `stopRecursion`. -/
def gphStep (fm : List (String × String)) (navs : List (String × Option String))
    (msg : ChatMsg) : Option ChatMsg :=
  match msg.parts.head? with
  | none => some msg
  | some messageText =>
    if messageText = "" then some msg
    else if msg.role = "model" then
      let x := extractXml messageText
      if x = "" then some msg
      else
        let chs := parseXmlChanges x
        if chs = [] then some msg
        else if chs.all (fun ch =>
            match assocLookup fm ch.file with
            | none => false
            | some cur => normTrim cur = normTrim (jsStringOf ch.content)) then
          some { msg with parts := [jsReplaceFirst messageText x simplifiedXml] }
        else none
    else if msg.role = "user" then
      let hmap := parseUserMessageForFiles messageText
      if hmap = [] then some msg
      else
        let historicalKeys := sortStrings (hmap.map (fun e => e.1))
        let currentKeys := sortStrings (fm.map (fun e => e.1))
        let allMatch := historicalKeys = currentKeys &&
          historicalKeys.all (fun key =>
            match assocLookup fm key, assocLookup hmap key with
            | some cur, some hv =>
              normTrim cur = hv.1 &&
                (assocLookup navs key).join = hv.2
            | _, _ => false)
        if allMatch then
          let blocks := historicalKeys.map (fun fp =>
            "--- START OF FILE " ++ fp ++ " ---\n[代码内容与当前上下文一致]" ++
              (match assocLookup hmap fp with
               | some (_, some _) =>
                 "\n\n--- AVAILABLE CODE BLOCK PATHS for " ++ fp ++
                   " ---\n[导航地图与当前上下文一致]"
               | _ => ""))
          some { msg with parts :=
            ["These are the existing files in the app:\n" ++ joinWith "\n\n" blocks ++
              "\n\n---User Instruction---\n" ++ instrSuffix messageText] }
        else none
    else some msg

def gphLoop (fm : List (String × String)) (navs : List (String × Option String)) :
    Nat → List ChatMsg → List ChatMsg
  | i, hist =>
    match hist.get? i with
    | none => hist
    | some msg =>
      match gphStep fm navs msg with
      | none => hist
      | some m' =>
        match i with
        | 0 => hist.set 0 m'
        | j + 1 => gphLoop fm navs j (hist.set (j + 1) m')

/-- Models `getProcessedHistory` (aiService.ts:182-284), with the module `config`
and the Babel parser passed explicitly. -/
def getProcessedHistory (cfg : GphConfig) (proj : Fs) (oracle : String → Option Ast)
    (history : List ChatMsg) : List ChatMsg :=
  if !cfg.optimizeCodeContext || history.isEmpty then history
  else
    let fm := (createProjectSummary proj).fileContentsMap
    gphLoop fm (navMapsOf oracle fm) (history.length - 1) history

/-! ### The C10 counter-scenario

The model message carries the envelope twice: once bare, once inside the
` ```xml ` fence.  `extractXml` extracts from the fence, but
`messageText.replace(extractedXml, simplifiedXml)` replaces the first
occurrence — the bare one — leaving the fenced envelope in place, so a
second run extracts and replaces it again.  The workspace consists of one
empty file `a.ts`, which matches the envelope's parsed content (the
`__cdata` slip of C2 makes that content the empty string). -/

def c10env : String :=
  "<changes><change><file>a.ts</file><content><![CDATA[P]]></content></change></changes>"

def c10msg : String := c10env ++ "\n```xml\n" ++ c10env ++ "\n```"

def c10proj : Fs := [("a.ts", Except.ok "")]

def c10oracle : String → Option Ast :=
  fun s => if s = "" then some ⟨[], [⟨1, 0, 0, none⟩]⟩ else none

def c10hist : List ChatMsg := [⟨"model", [c10msg]⟩]

def c10cfgOpt : GphConfig := ⟨true⟩

/-- Claim C10: the history rewrite is not idempotent.  On `c10hist` the
first run rewrites the bare envelope copy (first occurrence) while the
fence still holds the original envelope; the second run, with the
workspace unchanged, rewrites again and produces a different message
list. -/
theorem c10_not_idempotent :
    getProcessedHistory c10cfgOpt c10proj c10oracle c10hist =
      [⟨"model", [simplifiedXml ++ "\n```xml\n" ++ c10env ++ "\n```"]⟩] ∧
    getProcessedHistory c10cfgOpt c10proj c10oracle
        (getProcessedHistory c10cfgOpt c10proj c10oracle c10hist) ≠
      getProcessedHistory c10cfgOpt c10proj c10oracle c10hist := by
  refine ⟨by decide, by decide⟩

end AISB
